import Mathlib

/-
Verification of the biomedical knowledge-graph exploration backend
(benchsci-googlecloud-hackathon).

Shallow embedding of the core components:
  * `Overview`      — SSE delta normalization and RAG chunk retrieval
                      (`backend/services/overview.py`)
  * `Spanner`       — bidirectional BFS shortest path
                      (`backend/services/spanner.py`)
  * `GraphBuilder`  — graph payload assembly
                      (`backend/services/graph_builder.py`)
  * `Chunking`      — deterministic document chunking
                      (`src/pilot_rag/chunking.py`)
  * `DumpParser`    — streaming MySQL dump parser
                      (`scripts/gcp/convert_sql_to_parquet.py`)
  * `DeepThink`     — reviewer scoring (`backend/services/deep_think.py`)

Python strings are embedded as `List Char` (named `Str`) so that prefix /
suffix / slicing reasoning is available; Python floats on the arithmetic
the claims are about are embedded as `ℚ`.
-/

abbrev Str := List Char

namespace Py

/-- Python whitespace (the ASCII part of `str.strip()` / regex `\s`):
space, tab, newline, carriage return, vertical tab, form feed. -/
def isSpace (c : Char) : Bool :=
  c = ' ' || c = '\t' || c = '\n' || c = '\r' || c = Char.ofNat 11 || c = Char.ofNat 12

/-- `str.lstrip()`. -/
def lstrip (s : Str) : Str := s.dropWhile isSpace

/-- `str.rstrip()`. -/
def rstrip (s : Str) : Str := (s.reverse.dropWhile isSpace).reverse

/-- `str.strip()`. -/
def strip (s : Str) : Str := lstrip (rstrip s)

/-- Numeric value of a run of ASCII digits (what `int()` does on a `\d+`
regex capture). -/
def digitsVal (s : Str) : Nat :=
  s.foldl (fun a c => a * 10 + (c.toNat - 48)) 0

end Py

namespace Overview

/-- `compute_delta(current, previous_full)` from `stream_overview_events` in
`backend/services/overview.py`.  SDK responses can be either cumulative or
delta-chunks; this normalizes to emitted deltas while preserving full text
for the done event.  Returns `(delta to emit, new full text)`. -/
def compute_delta (current previous_full : Str) : Str × Str :=
  if current = [] then ([], previous_full)
  else if previous_full.isPrefixOf current then
    (current.drop previous_full.length, current)
  else if current.isPrefixOf previous_full then
    ([], previous_full)
  else
    (current, previous_full ++ current)

/-- The chunk loop of `stream_overview_events`: folds `compute_delta` over the
chunk texts, collecting the non-empty deltas that are emitted as `delta`
events (`if not delta: continue`) and threading `full_text`. -/
def stream_loop : List Str → Str → List Str × Str
  | [], full_text => ([], full_text)
  | c :: rest, full_text =>
    let p := compute_delta c full_text
    let q := stream_loop rest p.2
    if p.1 = [] then q else (p.1 :: q.1, q.2)

/-- `stream_overview_events`, restricted to its generation loop: given the
chunk texts pulled from the model stream, returns the list of emitted
`delta` texts (in emission order) and the `text` field of the `done`
event (the final `full_text`). -/
def stream_overview_events (chunks : List Str) : List Str × Str :=
  stream_loop chunks []

end Overview

namespace DeepThink

/-- Leftmost-match `re.search` driver: try the position matcher `m` on every
suffix of the text, leftmost first, returning the first capture. -/
def reSearch (m : Str → Option Str) : Str → Option Str
  | [] => m []
  | c :: rest =>
    match m (c :: rest) with
    | some g => some g
    | none => reSearch m rest

/-- Case-insensitive literal match at the current position (`re.IGNORECASE`):
the next `pat.length` characters, lowercased, equal `pat` (given lowercased). -/
def ciAt (pat l : Str) : Bool :=
  (l.take pat.length).map Char.toLower = pat

/-- Position matcher for `CONFIDENCE:\s*(\d+)\s*/\s*10` (IGNORECASE).
`\s*`/`\d+` munch maximally; as the character classes of adjacent pieces are
disjoint, maximal munch coincides with the backtracking semantics. -/
def conf10At (l : Str) : Option Str :=
  if ciAt "confidence:".toList l then
    let r1 := (l.drop 11).dropWhile Py.isSpace
    let ds := r1.takeWhile Char.isDigit
    if ds = [] then none
    else
      match (r1.drop ds.length).dropWhile Py.isSpace with
      | '/' :: r3 =>
        if ((r3.dropWhile Py.isSpace).take 2) = ['1', '0'] then some ds else none
      | _ => none
  else none

/-- Position matcher for `(\d+)\s*/\s*10`. -/
def frac10At (l : Str) : Option Str :=
  let ds := l.takeWhile Char.isDigit
  if ds = [] then none
  else
    match (l.drop ds.length).dropWhile Py.isSpace with
    | '/' :: r3 =>
      if ((r3.dropWhile Py.isSpace).take 2) = ['1', '0'] then some ds else none
    | _ => none

/-- Position matcher for `score[:\s]+(\d+)` (IGNORECASE). -/
def scoreAt (l : Str) : Option Str :=
  if ciAt "score".toList l then
    let r := l.drop 5
    let seps := r.takeWhile (fun c => c = ':' || Py.isSpace c)
    if seps = [] then none
    else
      let ds := (r.drop seps.length).takeWhile Char.isDigit
      if ds = [] then none else some ds
  else none

/-- Position matcher for `REASONING:\s*(.+)` (IGNORECASE, DOTALL).  `.+` is
greedy and, under DOTALL, runs to the end of the text; when everything after
`REASONING:` is whitespace the engine backtracks `\s*` so that `.+` still
gets one character. -/
def reasonAt (l : Str) : Option Str :=
  if ciAt "reasoning:".toList l then
    let r := l.drop 10
    if r = [] then none
    else
      let k := (r.takeWhile Py.isSpace).length
      some (r.drop (min k (r.length - 1)))
  else none

/-- The multi-pattern score extraction of `_review_response`
(`backend/services/deep_think.py`): most specific pattern first. -/
def findScore (text : Str) : Option Str :=
  (reSearch conf10At text).orElse fun _ =>
    (reSearch frac10At text).orElse fun _ => reSearch scoreAt text

/-- Result of `_review_response`: `{"score": ..., "reasoning": ...}`. -/
structure ReviewResult where
  score : Nat
  reasoning : Str
deriving DecidableEq, Repr

/-- `_review_response(question, papers_context, response)` from
`backend/services/deep_think.py`, as a function of the outcome of the
reviewer model call (`.error` = the call raised; `.ok text` = the reply
text, with `getattr(resp, "text", "") or ""` already applied).  The prompt
construction does not affect the returned value and is omitted. -/
def review_response (model_reply : Except Unit Str) : ReviewResult :=
  match model_reply with
  | .error _ => ⟨0, []⟩
  | .ok text =>
    let score_m := findScore text
    let reason_m := reSearch reasonAt text
    let score : Nat :=
      match score_m with
      | some g => Py.digitsVal g
      | none => 5
    let reasoning : Str :=
      match reason_m with
      | some cap => (Py.strip cap).take 300
      | none => (Py.strip text).take 300
    ⟨min 10 (max 1 score), reasoning⟩

end DeepThink

namespace Spanner

/-- A path segment `{"from": ..., "to": ..., "relation_type": ...}` as
produced by `backend/services/spanner.py` (`from`/`to` are Lean keywords/tokens, hence
`fro`/`tgt`). -/
structure Seg (α β : Type) where
  fro : α
  tgt : α
  rel : β
deriving DecidableEq, Repr

/-- `MAX_DEPTH = 4  # Max hops per BFS direction (total path length up to ~8)` -/
def MAX_DEPTH : Nat := 4

/-- `MAX_FRONTIER_SIZE = 500  # Cap frontier to prevent hub-node explosion` -/
def MAX_FRONTIER_SIZE : Nat := 500

/-- A BFS parent map `entity_id -> (parent_id | None, relation_type | None)`,
embedded as an insertion-ordered association list (newest first); the payload
`none` is the `(None, None)` marker of a BFS root. -/
abbrev PMap (α β : Type) := List (α × Option (α × β))

/-- Dictionary lookup in a parent map. -/
def pfind [DecidableEq α] : PMap α β → α → Option (Option (α × β))
  | [], _ => none
  | (a, v) :: rest, k => if k = a then some v else pfind rest k

/-- The inner double loop of `_expand_frontier`: iterate over
`(src, neighbor, relation_type)` triples in enumeration order, writing
first-comer parents and returning early with the meeting point as soon as a
newly added node is found in the other side's parent map. -/
def expandGo [DecidableEq α] :
    List (α × α × β) → PMap α β → PMap α β → List α →
      PMap α β × List α × Option α
  | [], own, _, new_frontier => (own, new_frontier, none)
  | (src, nid, rel) :: rest, own, other, new_frontier =>
    if (pfind own nid).isSome then expandGo rest own other new_frontier
    else
      let own1 := (nid, some (src, rel)) :: own
      let nf1 := new_frontier ++ [nid]
      if (pfind other nid).isSome then (own1, nf1, some nid)
      else expandGo rest own1 other nf1

/-- `_expand_frontier(frontier, own_parents, other_parents)`: truncate the
frontier at `MAX_FRONTIER_SIZE` in enumeration order, batch-fetch 1-hop
neighbors (`g`, modelling `_find_neighbor_ids`), and expand.  Returns the
updated own parent map, the new frontier, and the meeting point if any.
(Python keeps frontiers as sets; the embedding fixes the enumeration order
as insertion order — no claim below depends on the order.) -/
def expand_frontier [DecidableEq α] (g : α → List (α × β)) (frontier : List α)
    (own other : PMap α β) : PMap α β × List α × Option α :=
  let frontier_list := frontier.take MAX_FRONTIER_SIZE
  expandGo
    ((frontier_list.map fun src => (g src).map fun nr => (src, nr.1, nr.2)).flatten)
    own other []

/-- Forward half of `_reconstruct_path`: walk parents from the meeting point
back towards `start`, producing `{"from": parent, "to": current}` segments
(reversed by the caller).  The Python `while` loop is fuelled by the map
size. -/
def walkF [DecidableEq α] : Nat → PMap α β → α → List (Seg α β)
  | 0, _, _ => []
  | fuel + 1, P, k =>
    match pfind P k with
    | some (some (p, r)) => ⟨p, k, r⟩ :: walkF fuel P p
    | _ => []

/-- Backward half of `_reconstruct_path`: walk parents from the meeting point
towards `end`, keeping `{"from": current, "to": parent}` direction. -/
def walkB [DecidableEq α] : Nat → PMap α β → α → List (Seg α β)
  | 0, _, _ => []
  | fuel + 1, P, k =>
    match pfind P k with
    | some (some (p, r)) => ⟨k, p, r⟩ :: walkB fuel P p
    | _ => []

/-- `_reconstruct_path(meeting_point, forward_parents, backward_parents)`. -/
def reconstruct_path [DecidableEq α] (meeting_point : α)
    (forward_parents backward_parents : PMap α β) : List (Seg α β) :=
  (walkF forward_parents.length forward_parents meeting_point).reverse
    ++ walkB backward_parents.length backward_parents meeting_point

/-- The `for depth in range(MAX_DEPTH)` loop of `_bfs_shortest_path`:
expand the smaller frontier, reconstruct on meeting, give up when the
expanded frontier empties, and return `None` when the fuel runs out. -/
def bfsLoop [DecidableEq α] (g : α → List (α × β)) :
    Nat → List α → List α → PMap α β → PMap α β → Option (List (Seg α β))
  | 0, _, _, _, _ => none
  | fuel + 1, forward_frontier, backward_frontier, forward_parents, backward_parents =>
    if forward_frontier.length ≤ backward_frontier.length then
      match expand_frontier g forward_frontier forward_parents backward_parents with
      | (fP, _, some meeting) => some (reconstruct_path meeting fP backward_parents)
      | (fP, fF, none) =>
        if fF = [] then none
        else bfsLoop g fuel fF backward_frontier fP backward_parents
    else
      match expand_frontier g backward_frontier backward_parents forward_parents with
      | (bP, _, some meeting) => some (reconstruct_path meeting forward_parents bP)
      | (bP, bF, none) =>
        if bF = [] then none
        else bfsLoop g fuel forward_frontier bF forward_parents bP

/-- `_bfs_shortest_path(start_id, end_id)` over a neighbor function `g`
(modelling the Spanner-backed `_find_neighbor_ids`, which returns, for each
source, its stored `(entity_id2, relation_type)` rows). -/
def bfs_shortest_path [DecidableEq α] (g : α → List (α × β)) (start_id end_id : α) :
    Option (List (Seg α β)) :=
  bfsLoop g MAX_DEPTH [start_id] [end_id] [(start_id, none)] [(end_id, none)]

/-- `segs` links `s` to `e`: each segment starts where the previous one
ended. -/
def IsChain [DecidableEq α] (s : α) : List (Seg α β) → α → Prop
  | [], e => s = e
  | seg :: rest, e => seg.fro = s ∧ IsChain seg.tgt rest e

instance isChainDec [DecidableEq α] [DecidableEq β] :
    ∀ (s : α) (l : List (Seg α β)) (e : α), Decidable (IsChain s l e)
  | s, [], e => by unfold IsChain; infer_instance
  | s, seg :: rest, e => by
      unfold IsChain
      have := isChainDec seg.tgt rest e
      infer_instance

/-- Every segment of `l` is a stored relationship row of the graph `g`. -/
abbrev SegsInGraph [DecidableEq α] [DecidableEq β] (g : α → List (α × β))
    (l : List (Seg α β)) : Prop :=
  ∀ seg ∈ l, (seg.tgt, seg.rel) ∈ g seg.fro

/-- Reversed forward-walk output: `l` lists `(parent, current)` segments from
`k` back to the BFS root. -/
inductive RevChainTo (root : α) : List (Seg α β) → α → Prop
  | nil : RevChainTo root [] root
  | cons {rest : List (Seg α β)} {p k : α} {r : β} :
      RevChainTo root rest p → RevChainTo root (⟨p, k, r⟩ :: rest) k

/-- `k` reaches the BFS root in exactly `n` parent steps within `P`. -/
inductive ReachN [DecidableEq α] (P : PMap α β) (root : α) : α → Nat → Prop
  | zero : pfind P root = some none → ReachN P root root 0
  | succ {k p : α} {r : β} {n : Nat} :
      pfind P k = some (some (p, r)) → ReachN P root p n → ReachN P root k (n + 1)

/-- Well-formed BFS parent map: built from the singleton root by inserting
fresh keys whose parent is already present — exactly the write discipline of
`_expand_frontier`. -/
inductive PMapWF [DecidableEq α] (root : α) : PMap α β → Prop
  | base : PMapWF root [(root, none)]
  | step {P : PMap α β} {src nid : α} {rel : β} :
      (pfind P src).isSome → pfind P nid = none →
      PMapWF root P → PMapWF root ((nid, some (src, rel)) :: P)

/-- The 5-edge chain graph n0 — n1 — n2 — n3 — n4 — n5 with every
relationship stored bidirectionally (as the loader does). -/
def chain5 : String → List (String × String)
  | "n0" => [("n1", "r")]
  | "n1" => [("n0", "r"), ("n2", "r")]
  | "n2" => [("n1", "r"), ("n3", "r")]
  | "n3" => [("n2", "r"), ("n4", "r")]
  | "n4" => [("n3", "r"), ("n5", "r")]
  | "n5" => [("n4", "r")]
  | _ => []

/-- The unique simple path from n0 to n5 in `chain5`. -/
def chain5Path : List (Seg String String) :=
  [⟨"n0", "n1", "r"⟩, ⟨"n1", "n2", "r"⟩, ⟨"n2", "n3", "r"⟩,
   ⟨"n3", "n4", "r"⟩, ⟨"n4", "n5", "r"⟩]

/-- The 2-edge chain graph a — b — c, bidirectional. -/
def chain2 : String → List (String × String)
  | "a" => [("b", "r1")]
  | "b" => [("a", "r1"), ("c", "r2")]
  | "c" => [("b", "r2")]
  | _ => []

end Spanner

namespace GraphBuilder

/-! Constant maps from `backend/mappings.py`. -/

def ENTITY_TYPE_TO_BIOLINK : List (String × String) :=
  [("gene", "biolink:Gene"),
   ("disease", "biolink:DiseaseOrPhenotypicFeature"),
   ("drug", "biolink:Drug"),
   ("pathway", "biolink:Pathway"),
   ("protein", "biolink:Protein")]

def BIOLINK_FALLBACK : String := "biolink:NamedThing"

def RELATION_TYPE_TO_PREDICATE : List (String × String) :=
  [("gene_disease", "biolink:gene_associated_with_condition"),
   ("disease_gene", "biolink:gene_associated_with_condition"),
   ("drug_gene", "biolink:affects"),
   ("gene_drug", "biolink:affects"),
   ("drug_disease", "biolink:treats"),
   ("disease_drug", "biolink:treats"),
   ("gene_gene", "biolink:genetically_interacts_with"),
   ("disease_disease", "biolink:correlated_with"),
   ("drug_drug", "biolink:interacts_with")]

def PREDICATE_FALLBACK : String := "biolink:related_to"

def ENTITY_TYPE_COLORS : List (String × String) :=
  [("gene", "#4A90D9"),
   ("disease", "#E74C3C"),
   ("drug", "#2ECC71"),
   ("pathway", "#F39C12"),
   ("protein", "#9B59B6")]

def COLOR_FALLBACK : String := "#95A5A6"

/-- Python `str.lower()` (ASCII part). -/
def pyLower (s : String) : String := s.map Char.toLower

/-- `_biolink_type(raw_type)`: `None`/empty is falsy and maps to the
fallback; otherwise a lowercased dictionary lookup with fallback. -/
def biolink_type (raw_type : Option String) : String :=
  match raw_type with
  | none => BIOLINK_FALLBACK
  | some t =>
    if t = "" then BIOLINK_FALLBACK
    else (ENTITY_TYPE_TO_BIOLINK.lookup (pyLower t)).getD BIOLINK_FALLBACK

/-- `_entity_color(raw_type)`. -/
def entity_color (raw_type : Option String) : String :=
  match raw_type with
  | none => COLOR_FALLBACK
  | some t =>
    if t = "" then COLOR_FALLBACK
    else (ENTITY_TYPE_COLORS.lookup (pyLower t)).getD COLOR_FALLBACK

/-- `_predicate(relation_type)`. -/
def relation_predicate (relation_type : Option String) : String :=
  match relation_type with
  | none => PREDICATE_FALLBACK
  | some t =>
    if t = "" then PREDICATE_FALLBACK
    else (RELATION_TYPE_TO_PREDICATE.lookup (pyLower t)).getD PREDICATE_FALLBACK

/-- Fuelled left-to-right non-overlapping `str.replace` on char lists. -/
def replaceAllGo (pat sub : Str) : Nat → Str → Str
  | 0, s => s
  | fuel + 1, s =>
    match s with
    | [] => []
    | c :: rest =>
      if pat ≠ [] ∧ pat.isPrefixOf (c :: rest) then
        sub ++ replaceAllGo pat sub fuel ((c :: rest).drop pat.length)
      else c :: replaceAllGo pat sub fuel rest

/-- `s.replace(pat, sub)`. -/
def pyReplace (s pat sub : String) : String :=
  (replaceAllGo pat.toList sub.toList s.length s.toList).asString

/-- `_label_from_predicate(predicate)`: strip `biolink:` and replace
underscores with spaces. -/
def label_from_predicate (predicate : String) : String :=
  pyReplace (pyReplace predicate "biolink:" "") "_" " "

/-! The JSON payload models from `backend/models/response.py`.  `float`
fields that the claims reason about are embedded as `ℚ`; `metadata` is the
`{"entity_id": ...}` dict actually built. -/

structure JsonEvidence where
  pmid : String
  snippet : String
  pub_year : Int
  source : String
deriving DecidableEq, Repr

structure JsonNode where
  id : String
  name : String
  type : String
  color : String
  size : ℚ
  is_expanded : Bool
  metadata : List (String × String)
deriving DecidableEq, Repr

structure JsonEdge where
  id : String
  source : String
  target : String
  predicate : String
  label : String
  color : String
  source_db : String
  direction : String
  confidence_score : ℚ
  provenance : String
  evidence : List JsonEvidence
  paper_count : Int
  trial_count : Int
  patent_count : Int
  cooccurrence_score : Int
deriving DecidableEq, Repr

structure JsonGraphPayload where
  center_node_id : String
  nodes : List JsonNode
  edges : List JsonEdge
  message : Option String
deriving DecidableEq, Repr

/-- The `center_entity` dict (`entity_id`, `type`, `mention`). -/
structure CenterEntity where
  entity_id : String
  type : Option String
  mention : String
deriving DecidableEq, Repr

/-- One related-entity row consumed by `build_graph_payload`.  Keys the code
reads with `rel.get(key, default)` are `Option`s (the default is applied at
the use site, as in the code); keys read with `rel[key]` are plain. -/
structure RelRow where
  other_entity_id : String
  other_type : Option String
  other_mention : Option String
  relation_type : String
  direction : Option String
  cooccurrence_score : Option Int
  pmids : Option (List String)
  paper_count : Option Int
  trial_count : Option Int
  patent_count : Option Int
deriving DecidableEq, Repr

/-- A `fetch_paper_details` row (`{title, year}`). -/
structure PaperDetail where
  title : String
  year : Int
deriving DecidableEq, Repr

/-- `round(x, 3)` (Python rounds floats half-to-even; the tie behaviour is
irrelevant to every claim below). -/
def round3 (q : ℚ) : ℚ := (Int.floor (q * 1000 + 1 / 2) : ℚ) / 1000

/-- `round(x, 4)`. -/
def round4 (q : ℚ) : ℚ := (Int.floor (q * 10000 + 1 / 2) : ℚ) / 10000

/-- `max(generator, default=1)`. -/
def pymaxD (d : Int) : List Int → Int
  | [] => d
  | s :: rest => rest.foldl max s

/-- In-place value update of the insertion-ordered node dict
(`nodes[other_id] = existing.model_copy(update={"size": s})`). -/
def updAssoc : List (String × JsonNode) → String → ℚ → List (String × JsonNode)
  | [], _, _ => []
  | (a, v) :: rest, k, s =>
    if a = k then (a, { v with size := s }) :: rest
    else (a, v) :: updAssoc rest k s

/-- The evidence list built for one relationship row. -/
def evidenceItems (paper_details : String → Option PaperDetail)
    (pmids : List String) : List JsonEvidence :=
  pmids.map fun pmid =>
    { pmid := pmid,
      snippet := ((paper_details pmid).map (·.title)).getD "",
      pub_year := ((paper_details pmid).map (·.year)).getD 0,
      source := "PubMed" }

/-- The body of the `for rel in related_entities` loop of
`build_graph_payload`: one step of the node-dict / edge-list accumulation.
`lg` is `math.log1p` (an external numeric library call, passed as a
parameter). -/
def buildStep (center_id : String) (max_score : Int) (lg : ℚ → ℚ)
    (paper_details : String → Option PaperDetail)
    (acc : List (String × JsonNode) × List JsonEdge) (rel : RelRow) :
    List (String × JsonNode) × List JsonEdge :=
  let nodes := acc.1
  let edges := acc.2
  let other_id := rel.other_entity_id
  let other_mention := rel.other_mention.getD other_id
  let cooccurrence_score := rel.cooccurrence_score.getD 0
  let node_size : ℚ := 0.6 + 0.8 * ((cooccurrence_score : ℚ) / (max_score : ℚ))
  let nodes1 :=
    match nodes.lookup other_id with
    | none =>
      nodes ++ [(other_id,
        { id := other_id,
          name := other_mention,
          type := biolink_type rel.other_type,
          color := entity_color rel.other_type,
          size := round3 node_size,
          is_expanded := false,
          metadata := [("entity_id", other_id)] })]
    | some existing =>
      -- `(existing.size or 0) < node_size`; `x or 0` has no effect on a float
      if existing.size < node_size then updAssoc nodes other_id (round3 node_size)
      else nodes
  let evidence := evidenceItems paper_details (rel.pmids.getD [])
  let predicate := relation_predicate (some rel.relation_type)
  let direction := rel.direction.getD "->"
  let st := if direction = "->" then (center_id, other_id) else (other_id, center_id)
  let confidence : ℚ :=
    if max_score > 0 then
      min (lg (cooccurrence_score : ℚ) / lg (max_score : ℚ)) 1
    else 0
  let edge_id := st.1 ++ "--" ++ st.2 ++ "--" ++ rel.relation_type
  (nodes1, edges ++ [{
    id := edge_id,
    source := st.1,
    target := st.2,
    predicate := predicate,
    label := label_from_predicate predicate,
    color := entity_color rel.other_type,
    source_db := "kg_raw",
    direction := direction,
    confidence_score := round4 confidence,
    provenance := "literature",
    evidence := evidence,
    paper_count := rel.paper_count.getD 0,
    trial_count := rel.trial_count.getD 0,
    patent_count := rel.patent_count.getD 0,
    cooccurrence_score := cooccurrence_score }])

/-- The center node (`size=1.5, is_expanded=True`). -/
def center_node_of (ce : CenterEntity) : JsonNode :=
  { id := ce.entity_id,
    name := ce.mention,
    type := biolink_type ce.type,
    color := entity_color ce.type,
    size := 1.5,
    is_expanded := true,
    metadata := [("entity_id", ce.entity_id)] }

/-- `max((rel.get("cooccurrence_score", 0) for rel in related_entities),
default=1) or 1`. -/
def max_score_of (related_entities : List RelRow) : Int :=
  let m := pymaxD 1 (related_entities.map fun rel => rel.cooccurrence_score.getD 0)
  if m = 0 then 1 else m

/-- `build_graph_payload(center_entity, related_entities, paper_details)`
from `backend/services/graph_builder.py`. -/
def build_graph_payload (lg : ℚ → ℚ) (center_entity : CenterEntity)
    (related_entities : List RelRow)
    (paper_details : String → Option PaperDetail) : JsonGraphPayload :=
  let center_id := center_entity.entity_id
  let acc := related_entities.foldl
    (buildStep center_id (max_score_of related_entities) lg paper_details)
    ([(center_id, center_node_of center_entity)], [])
  { center_node_id := center_id,
    nodes := acc.1.map Prod.snd,
    edges := acc.2,
    message := none }

/-- Concrete fixture: a minimal center entity. -/
def centerW : CenterEntity := ⟨"c", none, "Center"⟩

/-- Concrete fixture: a minimal related-entity row. -/
def relW : RelRow := ⟨"o", none, none, "x", none, none, none, none, none, none⟩

/-- A path segment as enriched by `_handle_shortest_path` in
`backend/routers/query.py`: `{"from", "to", "relation_type", "pmids"}`. -/
structure PathSegment where
  fro : String
  tgt : String
  relation_type : String
  pmids : List String
deriving DecidableEq, Repr

/-- A `find_entities_by_ids` row: mention and type of a path entity. -/
structure EntityDetail where
  mention : String
  type : Option String
deriving DecidableEq, Repr

/-- One node of the path payload: the first node of the path gets
`is_expanded=true, size=1.5`, every other node `size=1.0,
is_expanded=false`. -/
def mkPathNode (entity_details : String → Option EntityDetail)
    (i : Nat) (pid : String) : JsonNode :=
  let det := entity_details pid
  { id := pid,
    name := ((det.map (·.mention)).getD pid),
    type := biolink_type (det.bind (·.type)),
    color := entity_color (det.bind (·.type)),
    size := if i = 0 then 1.5 else 1.0,
    is_expanded := i = 0,
    metadata := [("entity_id", pid)] }

/-- Nodes of the path payload, in path order. -/
def pathNodes (entity_details : String → Option EntityDetail) :
    Nat → List String → List JsonNode
  | _, [] => []
  | i, pid :: rest => mkPathNode entity_details i pid :: pathNodes entity_details (i + 1) rest

/-- One edge of the path payload, for one segment. -/
def mkPathEdge (paper_details : String → Option PaperDetail)
    (seg : PathSegment) : JsonEdge :=
  let predicate := relation_predicate (some seg.relation_type)
  { id := seg.fro ++ "--" ++ seg.tgt ++ "--" ++ seg.relation_type,
    source := seg.fro,
    target := seg.tgt,
    predicate := predicate,
    label := label_from_predicate predicate,
    color := COLOR_FALLBACK,
    source_db := "kg_raw",
    direction := "->",
    confidence_score := min ((seg.pmids.length : ℚ) / 10) 1,
    provenance := "literature",
    evidence := evidenceItems paper_details seg.pmids,
    paper_count := 0,
    trial_count := 0,
    patent_count := 0,
    cooccurrence_score := 0 }

/-- Modelled from the spec: `build_path_graph_payload(path_ids, segments,
entity_details, paper_details)` is imported by `backend/routers/query.py`
from `backend.services.graph_builder` but is **not defined** in the source
tree; this definition follows spec §4.6 / §3 — emit nodes in path order,
the first with `is_expanded=true, size=1.5`, others `size=1.0,
is_expanded=false`; for each segment emit an edge with `direction="->"`,
evidence from the pre-attached PMIDs, and confidence derived from the
evidence count, saturating at 1.0 at 10 PMIDs
(`min(evidence_count/10, 1.0)`).  Fields the spec leaves open (edge color,
counts) take neutral values. -/
def build_path_graph_payload (path_ids : List String)
    (segments : List PathSegment)
    (entity_details : String → Option EntityDetail)
    (paper_details : String → Option PaperDetail) : JsonGraphPayload :=
  { center_node_id := path_ids.headD "",
    nodes := pathNodes entity_details 0 path_ids,
    edges := segments.map (mkPathEdge paper_details),
    message := none }

end GraphBuilder

namespace Overview

/-- A retrieved chunk (`RagChunk` dataclass in
`backend/services/overview.py`). -/
structure RagChunk where
  chunk_id : String
  doc_id : String
  doc_type : String
  chunk_text : String
  source_id : String
  distance : ℚ
deriving DecidableEq, Repr

/-- A row of the embeddings table
(`SELECT chunk_id, doc_id, doc_type, chunk_text, source_id`). -/
structure ChunkRow where
  chunk_id : String
  doc_id : String
  doc_type : String
  chunk_text : String
  source_id : String
deriving DecidableEq, Repr

/-- The parts of `SelectionContext` that `_retrieve_rag_chunks` reads:
`context.edge.source`, `context.edge.target`, `context.center_overview`,
and the output of `_build_query_text(context)` (a pure function of the
context, used both as embedding input and for rerank token overlap). -/
structure RagSelection where
  source : String
  target : String
  center_overview : Bool
  query_text : String
deriving DecidableEq, Repr

/-- The environment of `_retrieve_rag_chunks`: settings and the outcomes of
its remote calls. -/
structure RagEnv where
  /-- `settings.VERTEX_VECTOR_ENDPOINT_RESOURCE` (`""` = unset/falsy). -/
  vector_endpoint_resource : String
  /-- `settings.VERTEX_VECTOR_DEPLOYED_INDEX_ID` (`""` = unset/falsy). -/
  vector_deployed_index_id : String
  /-- Combined outcome of the guarded `try` block (`get_embeddings` +
  `find_neighbors`): on success, the `(id, distance)` neighbor list for the
  single query; on failure, the raised exception. -/
  embed_ann : Except String (List (String × ℚ))
  /-- Rows of `OVERVIEW_RAG_EMBED_TABLE`. -/
  embed_table : List ChunkRow
  /-- Whether the (unguarded) chunk lookup BigQuery call raises. -/
  chunk_query_raises : Bool
  /-- Rows `(doc_id, entity_id)` of `OVERVIEW_RAG_ENTITY_TABLE`. -/
  doc_entity : List (String × String)
  /-- Whether the co-mention filter query raises `GoogleAPICallError`. -/
  filter_raises : Bool
  /-- `settings.OVERVIEW_RAG_TOP_K`. -/
  rag_top_k : Nat
deriving Repr

/-- Maximal `[a-zA-Z0-9]+` runs of a char list, in order (the matches of
`re.findall`); `acc` holds the current run reversed. -/
def tokenRunsGo : Str → Str → List Str
  | acc, [] => if acc = [] then [] else [acc.reverse]
  | acc, c :: rest =>
    if c.isAlphanum then tokenRunsGo (c :: acc) rest
    else if acc = [] then tokenRunsGo [] rest
    else acc.reverse :: tokenRunsGo [] rest

/-- `_tokenize(text)`: `set(re.findall(r"[a-zA-Z0-9]+", text.lower()))`. -/
def tokenize (text : String) : Finset String :=
  ((tokenRunsGo [] (text.toList.map Char.toLower)).map List.asString).toFinset

/-- The rerank score: `0.75 * sim + 0.25 * overlap` with
`sim = 1/(1 + max(distance, 0))` and
`overlap = |tokens(chunk) ∩ tokens(query)| / max(1, |tokens(query)|)`. -/
def rank (query_tokens : Finset String) (chunk : RagChunk) : ℚ :=
  let sim : ℚ := 1 / (1 + max chunk.distance 0)
  let overlap : ℚ :=
    ((tokenize chunk.chunk_text ∩ query_tokens).card : ℚ)
      / (max 1 query_tokens.card : ℚ)
  0.75 * sim + 0.25 * overlap

/-- Stable insertion into a descending-sorted list (equal keys keep original
order, as in CPython's stable `list.sort(key=..., reverse=True)`). -/
def insertDesc (key : RagChunk → ℚ) (x : RagChunk) :
    List RagChunk → List RagChunk
  | [] => [x]
  | y :: ys => if key x ≥ key y then x :: y :: ys else y :: insertDesc key x ys

/-- Stable descending sort by key. -/
def sortDesc (key : RagChunk → ℚ) : List RagChunk → List RagChunk
  | [] => []
  | x :: xs => insertDesc key x (sortDesc key xs)

/-- The `neighbor_map` construction: ids are taken in order, falsy (empty)
ids are skipped; on a duplicated id the later distance wins (dict
overwrite). -/
def neighborPairs (env : RagEnv) : List (String × ℚ) :=
  match env.embed_ann with
  | .ok r => r.filter fun n => n.1 ≠ ""
  | .error _ => []

/-- The chunk list built from the embeddings-table rows whose `chunk_id` is
among the neighbor ids, each annotated with `neighbor_map.get(chunk_id, 0.0)`
(last write wins). -/
def chunksOf (env : RagEnv) (neighbor_pairs : List (String × ℚ)) :
    List RagChunk :=
  (env.embed_table.filter fun r =>
      ((neighbor_pairs.map Prod.fst).dedup).contains r.chunk_id).map fun r =>
    { chunk_id := r.chunk_id,
      doc_id := r.doc_id,
      doc_type := r.doc_type,
      chunk_text := r.chunk_text,
      source_id := r.source_id,
      distance := (neighbor_pairs.reverse.lookup r.chunk_id).getD 0 }

/-- The chunks as they stand before the co-mention filter. -/
def preChunks (env : RagEnv) : List RagChunk := chunksOf env (neighborPairs env)

/-- `eligible_doc_ids`: empty for center-node selections and on
`GoogleAPICallError`; otherwise the SQL semantics of
`WHERE entity_id IN (src, tgt) AND doc_id IN doc_ids GROUP BY doc_id
HAVING COUNT(DISTINCT entity_id) = 2` — a distinct count of 2 means both
endpoints are present and distinct. -/
def eligibleOf (env : RagEnv) (context : RagSelection)
    (doc_ids : List String) : List String :=
  if context.center_overview then []
  else if env.filter_raises then []
  else doc_ids.filter fun d =>
    decide (context.source ≠ context.target)
      && env.doc_entity.contains (d, context.source)
      && env.doc_entity.contains (d, context.target)

/-- The filter set actually computed for a request. -/
def eligibleDocIds (env : RagEnv) (context : RagSelection) : List String :=
  eligibleOf env context ((preChunks env).map (·.doc_id)).dedup

/-- The body of `_retrieve_rag_chunks` after the ANN call, as a function of
the ANN outcome (the Python locals `neighbor_pairs`, `chunks`, `doc_ids`,
`eligible_doc_ids`, `chunks1` are inlined). -/
def retrieveRest (env : RagEnv) (context : RagSelection) :
    Except String (List (String × ℚ)) → Except String (List RagChunk)
  | .error _ => .ok []
  | .ok result0 =>
    -- `if not result or not result[0]: return []`; `if not neighbor_map: return []`
    if result0 = [] then .ok []
    else if result0.filter (fun n => n.1 ≠ "") = [] then .ok []
    else if env.chunk_query_raises then .error "chunk lookup query raised"
    -- `if not doc_ids: return []`
    else if ((chunksOf env (result0.filter fun n => n.1 ≠ "")).map
        (·.doc_id)).dedup = [] then .ok []
    -- `if eligible_doc_ids:` — apply the co-mention filter only when non-empty
    else if eligibleOf env context
        (((chunksOf env (result0.filter fun n => n.1 ≠ "")).map
          (·.doc_id)).dedup) ≠ [] then
      .ok ((sortDesc (rank (tokenize context.query_text))
        ((chunksOf env (result0.filter fun n => n.1 ≠ "")).filter fun c =>
          (eligibleOf env context
            (((chunksOf env (result0.filter fun n => n.1 ≠ "")).map
              (·.doc_id)).dedup)).contains c.doc_id)).take env.rag_top_k)
    else
      .ok ((sortDesc (rank (tokenize context.query_text))
        (chunksOf env (result0.filter fun n => n.1 ≠ ""))).take env.rag_top_k)

/-- `_retrieve_rag_chunks(context)` from `backend/services/overview.py`.
`.error` models an uncaught exception propagating to the caller. -/
def retrieve_rag_chunks (env : RagEnv) (context : RagSelection) :
    Except String (List RagChunk) :=
  if env.vector_endpoint_resource = "" ∨ env.vector_deployed_index_id = "" then
    .ok []
  else retrieveRest env context env.embed_ann

/-- Concrete fixture: a configured environment whose ANN returns one chunk
living in document d1, with an *empty* doc-entity table. -/
def envC2 : RagEnv :=
  ⟨"ep", "idx", .ok [("c1", 0)], [⟨"c1", "d1", "paper", "txt", "S1"⟩],
   false, [], false, 20⟩

/-- Concrete fixture: same as `envC2` but document d1 co-mentions both
endpoints. -/
def envC2f : RagEnv :=
  ⟨"ep", "idx", .ok [("c1", 0)], [⟨"c1", "d1", "paper", "txt", "S1"⟩],
   false, [("d1", "s"), ("d1", "t")], false, 20⟩

/-- Concrete fixture: an edge selection s → t (not a center overview). -/
def ctxC2 : RagSelection := ⟨"s", "t", false, "q"⟩

end Overview

namespace Chunking

/-- The `Chunk` dataclass of `src/pilot_rag/chunking.py`. -/
structure Chunk where
  chunk_id : String
  doc_id : String
  doc_type : String
  chunk_index : Nat
  text : Str
  start_offset : Nat
  end_offset : Nat
deriving DecidableEq, Repr

/-- `f"{doc_id}#{idx}"`. -/
def mkChunkId (doc_id : String) (idx : Nat) : String :=
  doc_id ++ "#" ++ toString idx

/-- The lookbehind class `[.!?]` of `_SENTENCE_SPLIT`. -/
def isSentEnd (c : Char) : Bool := c = '.' || c = '!' || c = '?'

/-- `re.split(r"(?<=[.!?])\s+", ...)`: cut at every maximal whitespace run
immediately preceded by `.`, `!` or `?`.  `acc` holds the current piece
reversed; the fuel (≥ input length) only serves structural recursion. -/
def splitGo : Nat → Str → Str → List Str
  | _, acc, [] => [acc.reverse]
  | 0, acc, rest => [acc.reverse ++ rest]
  | fuel + 1, acc, c :: rest =>
    if Py.isSpace c && (match acc with | p :: _ => isSentEnd p | [] => false) then
      acc.reverse :: splitGo fuel [] (rest.dropWhile Py.isSpace)
    else splitGo fuel (c :: acc) rest

/-- `split_sentences(text)`:
`[s.strip() for s in _SENTENCE_SPLIT.split(text.strip()) if s.strip()]`. -/
def split_sentences (text : Str) : List Str :=
  (((splitGo (Py.strip text).length [] (Py.strip text)).map Py.strip).filter
    (· ≠ []))

/-- The loop state of `chunk_document`: emitted chunks, current chunk text,
its start offset, and the next chunk index. -/
structure ChunkState where
  chunks : List Chunk
  cur : Str
  start : Nat
  idx : Nat
deriving Repr

/-- One iteration of the `for sent in sentences` loop of `chunk_document`.
`cur[max(0, len(cur) - overlap_chars):]` is `drop (length - overlap_chars)`
(ℕ-subtraction truncates at 0 exactly like the `max`). -/
def chunkStep (doc_id doc_type : String) (max_chars overlap_chars : Nat)
    (st : ChunkState) (sent : Str) : ChunkState :=
  let candidate := Py.strip (st.cur ++ ' ' :: sent)
  if st.cur ≠ [] ∧ candidate.length > max_chars then
    let endOff := st.start + st.cur.length
    let chunk : Chunk :=
      ⟨mkChunkId doc_id st.idx, doc_id, doc_type, st.idx, st.cur, st.start, endOff⟩
    let overlap := st.cur.drop (st.cur.length - overlap_chars)
    ⟨st.chunks ++ [chunk],
     Py.strip (overlap ++ ' ' :: sent),
     max 0 (endOff - overlap.length),
     st.idx + 1⟩
  else
    ⟨st.chunks, candidate, st.start, st.idx⟩

/-- `chunk_document(doc_id, doc_type, text, max_chars, overlap_chars)` from
`src/pilot_rag/chunking.py`. -/
def chunk_document (doc_id doc_type : String) (text : Str)
    (max_chars overlap_chars : Nat) : List Chunk :=
  let text1 := Py.strip text
  if text1 = [] then []
  else if text1.length ≤ max_chars then
    [⟨mkChunkId doc_id 0, doc_id, doc_type, 0, text1, 0, text1.length⟩]
  else
    let sentences := split_sentences text1
    let st := sentences.foldl
      (chunkStep doc_id doc_type max_chars overlap_chars) ⟨[], [], 0, 0⟩
    if st.cur ≠ [] then
      st.chunks ++ [⟨mkChunkId doc_id st.idx, doc_id, doc_type, st.idx,
        st.cur, st.start, st.start + st.cur.length⟩]
    else st.chunks

/-- A char list with no leading and no trailing whitespace (the shape of any
`str.strip()` result). -/
def StrippedP (l : Str) : Prop :=
  (∀ h : l ≠ [], ¬ (Py.isSpace (l.head h) = true))
  ∧ (∀ h : l ≠ [], ¬ (Py.isSpace (l.getLast h) = true))

/-- The amended adjacency property between consecutive chunks: the later
chunk starts with the overlap slice (the final
`min(overlap_chars, len(prev.text))` characters of the previous chunk's
text) stripped of leading whitespace, and its `start_offset` is the
previous `end_offset` minus the untrimmed overlap length. -/
def ChunkAdj (overlap_chars : Nat) (a b : Chunk) : Prop :=
  (Py.lstrip (a.text.drop (a.text.length - overlap_chars)) <+: b.text)
  ∧ b.start_offset = a.end_offset - min overlap_chars a.text.length

/-- Every adjacent pair of the list satisfies `ChunkAdj`. -/
def AdjOK (overlap_chars : Nat) : List Chunk → Prop
  | [] => True
  | [_] => True
  | a :: b :: rest => ChunkAdj overlap_chars a b ∧ AdjOK overlap_chars (b :: rest)

/-- The loop invariant of `chunk_document`. -/
def StateInv (oc : Nat) (st : ChunkState) : Prop :=
  AdjOK oc st.chunks
  ∧ (∀ ch ∈ st.chunks,
      StrippedP ch.text ∧ ch.text ≠ []
      ∧ ch.end_offset = ch.start_offset + ch.text.length)
  ∧ (st.chunks ≠ [] → st.cur ≠ [])
  ∧ (st.cur ≠ [] → StrippedP st.cur)
  ∧ (∀ h : st.chunks ≠ [],
      (Py.lstrip ((st.chunks.getLast h).text.drop
          ((st.chunks.getLast h).text.length - oc)) <+: st.cur)
      ∧ st.start = (st.chunks.getLast h).end_offset
          - min oc (st.chunks.getLast h).text.length)

end Chunking

namespace DumpParser

/-- Single quote and backslash characters (kept out of string literals). -/
def sq : Char := Char.ofNat 39

def bs : Char := Char.ofNat 92

/-- A decoded SQL value: `stream_rows` appends Python `str`, `None` or
`int` objects to the row. -/
inductive SqlValue where
  | s (v : Str)
  | null
  | i (v : Int)
deriving DecidableEq, Repr

/-- The parser states `SCAN .. AFTER_ROW` of
`scripts/gcp/convert_sql_to_parquet.py`. -/
inductive PState where
  | scan
  | row_start
  | value_start
  | string_st
  | number
  | null_kw
  | binary_lit
  | after_value
  | after_row
deriving DecidableEq, Repr

/-- The mutable locals of `stream_rows` (`binary_pos` is
`binary_prefix_pos`). -/
structure Machine where
  state : PState
  current_value : Str
  current_row : List SqlValue
  escape_next : Bool
  null_pos : Nat
  binary_phase : Nat
  binary_pos : Nat
  binary_val : Str
  bad_row_count : Nat
deriving Repr

/-- `binary_prefix = "_binary '"`. -/
def binPat : Str := "_binary ".toList ++ [sq]

/-- Python `int(val_str)`: optional surrounding whitespace, optional sign,
one or more ASCII digits (underscore grouping never occurs in these dumps
and is not modelled). -/
def pyDigits (ds : Str) : Option Nat :=
  if ds ≠ [] ∧ ds.all Char.isDigit then some (Py.digitsVal ds) else none

def pyInt (s : Str) : Option Int :=
  match Py.strip s with
  | '+' :: ds => (pyDigits ds).map Int.ofNat
  | '-' :: ds => (pyDigits ds).map fun n => -(n : Int)
  | ds => (pyDigits ds).map Int.ofNat

/-- The row-emission guard shared by the two `yield` sites: a row is
yielded only when its value count equals the declared column count. -/
def checkEmit (num_cols : Nat) (row : List SqlValue) : Option (List SqlValue) :=
  if row.length = num_cols then some row else none

/-- The `AFTER_VALUE` state transition (also run when `NULL_KW` mismatches
and re-processes the current character). -/
def afterValueStep (n : Nat) (m : Machine) (c : Char) :
    Machine × Option (List SqlValue) :=
  if c = ',' then ({ m with state := .value_start }, none)
  else if c = ')' then
    ({ m with
        current_row := [],
        state := .after_row,
        bad_row_count := if m.current_row.length = n then m.bad_row_count
          else m.bad_row_count + 1 },
     checkEmit n m.current_row)
  else (m, none)

/-- One character of the chunk state machine, for every state except `SCAN`
(the runner handles `SCAN` with `data.find("VALUES ", i)`). -/
def stepNS (n : Nat) (m : Machine) (c : Char) :
    Machine × Option (List SqlValue) :=
  match m.state with
  | .scan => (m, none)
  | .row_start =>
    if c = '(' then ({ m with current_row := [], state := .value_start }, none)
    else if c = ' ' ∨ c = '\n' ∨ c = '\r' ∨ c = '\t' then (m, none)
    else ({ m with state := .scan }, none)
  | .value_start =>
    if c = sq then
      ({ m with
          current_value := [],
          escape_next := false,
          state := .string_st }, none)
    else if c = 'N' then ({ m with null_pos := 1, state := .null_kw }, none)
    else if c = '_' then
      ({ m with
          binary_pos := 1,
          binary_phase := 0,
          binary_val := [],
          state := .binary_lit }, none)
    else if c = '-' ∨ c.isDigit then
      ({ m with current_value := [c], state := .number }, none)
    else if c = ')' then ({ m with state := .after_row }, none)
    else ({ m with current_value := [], state := .string_st }, none)
  | .string_st =>
    if m.escape_next then
      let d := if c = sq then sq
        else if c = bs then bs
        else if c = 'n' then '\n'
        else if c = 'r' then '\r'
        else if c = 't' then '\t'
        else if c = '0' then Char.ofNat 0
        else c
      ({ m with
          escape_next := false,
          current_value := m.current_value ++ [d] }, none)
    else if c = bs then ({ m with escape_next := true }, none)
    else if c = sq then
      ({ m with
          current_row := m.current_row ++ [.s m.current_value],
          current_value := [],
          state := .after_value }, none)
    else ({ m with current_value := m.current_value ++ [c] }, none)
  | .number =>
    if c = ',' then
      ({ m with
          current_row := m.current_row ++ [.s m.current_value],
          current_value := [],
          state := .value_start }, none)
    else if c = ')' then
      ({ m with
          current_value := [],
          current_row := [],
          state := .after_row,
          bad_row_count :=
            if (m.current_row ++ [SqlValue.s m.current_value]).length = n then
              m.bad_row_count
            else m.bad_row_count + 1 },
       checkEmit n (m.current_row ++ [SqlValue.s m.current_value]))
    else ({ m with current_value := m.current_value ++ [c] }, none)
  | .null_kw =>
    if m.null_pos < 4 ∧ c = "NULL".toList.getD m.null_pos ' ' then
      if m.null_pos + 1 = 4 then
        ({ m with
            current_row := m.current_row ++ [.null],
            null_pos := m.null_pos + 1,
            state := .after_value }, none)
      else ({ m with null_pos := m.null_pos + 1 }, none)
    else
      -- `current_row.append("N" + data[i:i])`, then re-process this char
      -- in `AFTER_VALUE` (the `continue` without `i += 1`)
      afterValueStep n
        { m with
            current_row := m.current_row ++ [.s ['N']],
            state := .after_value } c
  | .binary_lit =>
    if m.binary_phase = 0 then
      if m.binary_pos < binPat.length ∧ c = binPat.getD m.binary_pos ' ' then
        if m.binary_pos + 1 = binPat.length then
          ({ m with binary_pos := m.binary_pos + 1, binary_phase := 1 }, none)
        else ({ m with binary_pos := m.binary_pos + 1 }, none)
      else
        ({ m with
            current_value := binPat.take m.binary_pos ++ [c],
            state := .string_st }, none)
    else
      if c = sq then
        let v : SqlValue :=
          match pyInt m.binary_val with
          | some k => .i k
          | none => .s m.binary_val
        ({ m with
            current_row := m.current_row ++ [v],
            binary_val := [],
            state := .after_value }, none)
      else ({ m with binary_val := m.binary_val ++ [c] }, none)
  | .after_value => afterValueStep n m c
  | .after_row =>
    if c = ',' then ({ m with state := .row_start }, none)
    else if c = ';' then ({ m with state := .scan }, none)
    else (m, none)

/-- `data.find("VALUES ", i)` followed by `i = vi + 7`: the remainder of the
text after the first occurrence of `"VALUES "`, if any. -/
def valuesPat : Str := "VALUES ".toList

def scanToValues : Str → Option Str
  | [] => none
  | c :: rest =>
    if valuesPat.isPrefixOf (c :: rest) then
      some ((c :: rest).drop valuesPat.length)
    else scanToValues rest

/-- The driver loop of `stream_rows`, fuelled for structural recursion (the
fuel is at least the remaining input length, so it never runs out). -/
def runM (n : Nat) : Nat → Machine → Str → List (List SqlValue)
  | 0, _, _ => []
  | fuel + 1, m, chars =>
    match chars with
    | [] => []
    | c :: rest =>
      if m.state = PState.scan then
        match scanToValues (c :: rest) with
        | none => []
        | some r2 => runM n fuel { m with state := .row_start } r2
      else
        match stepNS n m c with
        | (m2, some row) => row :: runM n fuel m2 rest
        | (m2, none) => runM n fuel m2 rest

def initMachine : Machine := ⟨.scan, [], [], false, 0, 0, 0, [], 0⟩

/-- `stream_rows(filepath, num_cols)` from
`scripts/gcp/convert_sql_to_parquet.py`, applied to an in-memory decoded
text (the claims concern single-`INSERT` lines far below the 16 MiB chunk
size, so the single-chunk view is exact). -/
def stream_rows (data : Str) (num_cols : Nat) : List (List SqlValue) :=
  runM num_cols (data.length + 1) initMachine data

/-- The spec's example INSERT line, exactly as written (spaces after the
commas): `INSERT INTO \x60t\x60 VALUES (1, 'he said \'hi\'', NULL,
_binary '1', -3.14e-2);` -/
def specLineSpaced : Str :=
  "INSERT INTO `t` VALUES (1, ".toList ++ [sq] ++ "he said ".toList
    ++ [bs, sq] ++ "hi".toList ++ [bs, sq] ++ [sq]
    ++ ", NULL, _binary ".toList ++ [sq, '1', sq] ++ ", -3.14e-2);".toList

/-- The same row in mysqldump's actual extended-INSERT spacing (no space
after the commas). -/
def specLineTight : Str :=
  "INSERT INTO `t` VALUES (1,".toList ++ [sq] ++ "he said ".toList
    ++ [bs, sq] ++ "hi".toList ++ [bs, sq] ++ [sq]
    ++ ",NULL,_binary ".toList ++ [sq, '1', sq] ++ ",-3.14e-2);".toList

/-- The row the claim expects: the string `"1"`, the string
`he said 'hi'`, a null, the integer 1, and the string `"-3.14e-2"`. -/
def specRow : List SqlValue :=
  [.s "1".toList,
   .s ("he said ".toList ++ [sq] ++ "hi".toList ++ [sq]),
   .null,
   .i 1,
   .s "-3.14e-2".toList]

end DumpParser

/-! All theorems are collected after the last definition. -/

namespace Overview

theorem compute_delta_snd (c F : Str) :
    (compute_delta c F).2 = F ++ (compute_delta c F).1 := by
  unfold compute_delta
  split_ifs with h1 h2 h3
  · simp
  · have hpre : F <+: c := by
      simpa using List.isPrefixOf_iff_prefix.mp h2
    obtain ⟨t, ht⟩ := hpre
    subst ht
    simp
  · simp
  · simp

theorem stream_loop_spec (chunks : List Str) (full_text : Str) :
    (stream_loop chunks full_text).2
      = full_text ++ (stream_loop chunks full_text).1.flatten := by
  induction chunks generalizing full_text with
  | nil => simp [stream_loop]
  | cons c rest ih =>
    have hsnd := compute_delta_snd c full_text
    by_cases h : (compute_delta c full_text).1 = []
    · have hstep : stream_loop (c :: rest) full_text
          = stream_loop rest (compute_delta c full_text).2 := by
        simp [stream_loop, h]
      have h2 : (compute_delta c full_text).2 = full_text := by
        rw [hsnd, h, List.append_nil]
      rw [hstep, h2, ih]
    · have hstep : stream_loop (c :: rest) full_text
          = ((compute_delta c full_text).1
              :: (stream_loop rest (compute_delta c full_text).2).1,
             (stream_loop rest (compute_delta c full_text).2).2) := by
        simp only [stream_loop, if_neg h]
      rw [hstep]
      simp only [List.flatten_cons]
      rw [ih, hsnd, List.append_assoc]

/-- C4: For every invocation of `stream_overview_events` that terminates with
a `done` event, the concatenation of the texts of all emitted `delta` events,
in emission order, equals the `text` field of the `done` event — for any
sequence of model stream chunks, whether the stream yields cumulative
snapshots, stale duplicates, or true delta chunks. -/
theorem claim_C4_delta_concat (chunks : List Str) :
    ((stream_overview_events chunks).1).flatten
      = (stream_overview_events chunks).2 := by
  unfold stream_overview_events
  rw [stream_loop_spec]
  simp

end Overview

namespace DeepThink

/-- C10 counterexample: on the model reply `"REASONING: fine."` (which has no
recognizable score pattern), `_review_response` returns score 5 with
reasoning `"fine."` — the REASONING capture — and *not* the full reply text
truncated to 300 characters, contradicting the claim's description of the
reasoning field. -/
theorem claim_C10_counterexample :
    findScore "REASONING: fine.".toList = none
    ∧ review_response (Except.ok "REASONING: fine.".toList)
        = ⟨5, "fine.".toList⟩
    ∧ review_response (Except.ok "REASONING: fine.".toList)
        ≠ ⟨5, (Py.strip "REASONING: fine.".toList).take 300⟩ := by
  refine ⟨by decide, by decide, by decide⟩

/-- C10 (amended): `_review_response` returns `{score: 0, reasoning: ""}`
exactly when the model call raises; on any reply the score is at least 1;
when the reply contains no recognizable score pattern the score is the
midpoint 5 (clamped into [1,10]); the reasoning is then the `REASONING:`
capture truncated to 300 characters when such a line is present, and the
reply text (stripped) truncated to 300 characters otherwise.  A zero score
therefore always signals a reviewer failure rather than a low rating. -/
theorem claim_C10_reviewer (t : Str) :
    review_response (Except.error ()) = ⟨0, []⟩
    ∧ 1 ≤ (review_response (Except.ok t)).score
    ∧ (findScore t = none → (review_response (Except.ok t)).score = 5)
    ∧ (findScore t = none → reSearch reasonAt t = none →
        (review_response (Except.ok t)).reasoning = (Py.strip t).take 300)
    ∧ (∀ cap, reSearch reasonAt t = some cap →
        (review_response (Except.ok t)).reasoning = (Py.strip cap).take 300) := by
  refine ⟨rfl, ?_, ?_, ?_, ?_⟩
  · simp only [review_response]
    exact le_min (by norm_num) (le_max_left 1 _)
  · intro h
    simp [review_response, h]
  · intro h hr
    simp [review_response, h, hr]
  · intro cap hr
    simp [review_response, hr]

/-- Witness for `claim_C10_reviewer` at the concrete reply
`"looks solid to me"` (no score pattern, no REASONING line). -/
theorem claim_C10_reviewer_witness :
    (review_response (Except.ok "looks solid to me".toList)).score = 5
    ∧ (review_response (Except.ok "looks solid to me".toList)).reasoning
        = (Py.strip "looks solid to me".toList).take 300 :=
  ⟨(claim_C10_reviewer "looks solid to me".toList).2.2.1 (by decide),
   (claim_C10_reviewer "looks solid to me".toList).2.2.2.1 (by decide) (by decide)⟩

end DeepThink


namespace Spanner

variable {α β : Type} [DecidableEq α]

theorem pfind_cons (a : α) (v : Option (α × β)) (P : PMap α β) (k : α) :
    pfind ((a, v) :: P) k = if k = a then some v else pfind P k := rfl

theorem pfind_cons_mono {P : PMap α β} {k : α} (a : α) (v : Option (α × β))
    (h : (pfind P k).isSome) : (pfind ((a, v) :: P) k).isSome := by
  rw [pfind_cons]
  split <;> simp_all

theorem pmapwf_root {root : α} {P : PMap α β} (h : PMapWF root P) :
    pfind P root = some none := by
  induction h with
  | base => simp [pfind]
  | @step P src nid rel hsrc hnid _ ih =>
    rw [pfind_cons]
    rcases eq_or_ne root nid with h | h
    · subst h
      rw [ih] at hnid
      cases hnid
    · rw [if_neg h]
      exact ih

theorem ReachN.lift {P : PMap α β} {root k : α} {n : Nat} {nid : α}
    {v : Option (α × β)} (hnid : pfind P nid = none) :
    ReachN P root k n → ReachN ((nid, v) :: P) root k n := by
  intro h
  induction h with
  | zero hr =>
    refine ReachN.zero ?_
    rw [pfind_cons, if_neg ?_]
    · exact hr
    · rintro rfl
      rw [hnid] at hr
      cases hr
  | @succ k p r n hk _ ih =>
    have hne : k ≠ nid := by
      rintro rfl
      rw [hnid] at hk
      cases hk
    exact ReachN.succ (show pfind ((nid, v) :: P) k = some (some (p, r)) by
      rw [pfind_cons, if_neg hne]; exact hk) ih

theorem pmapwf_reach {root : α} {P : PMap α β} (h : PMapWF root P) :
    ∀ k, (pfind P k).isSome → ∃ n, n + 1 ≤ P.length ∧ ReachN P root k n := by
  induction h with
  | base =>
    intro k hk
    rcases eq_or_ne k root with rfl | hne
    · exact ⟨0, by simp, ReachN.zero (by simp [pfind])⟩
    · simp [pfind, hne] at hk
  | @step P src nid rel hsrc hnid hwf ih =>
    intro k hk
    rcases eq_or_ne k nid with rfl | hne
    · obtain ⟨n, hn, hr⟩ := ih src hsrc
      refine ⟨n + 1, ?_, ?_⟩
      · simpa using Nat.succ_le_succ hn
      · exact ReachN.succ (by rw [pfind_cons, if_pos rfl]) (hr.lift hnid)
    · rw [pfind_cons, if_neg hne] at hk
      obtain ⟨n, hn, hr⟩ := ih k hk
      exact ⟨n, by simpa using Nat.le_succ_of_le hn, hr.lift hnid⟩

theorem walkF_revchain {P : PMap α β} {root k : α} {n : Nat}
    (h : ReachN P root k n) :
    ∀ fuel, n ≤ fuel → RevChainTo root (walkF fuel P k) k := by
  induction h with
  | zero hr =>
    intro fuel _
    cases fuel with
    | zero => exact RevChainTo.nil
    | succ f =>
      simp only [walkF, hr]
      exact RevChainTo.nil
  | @succ k p r n hk _ ih =>
    intro fuel hf
    cases fuel with
    | zero => omega
    | succ f =>
      simp only [walkF, hk]
      exact RevChainTo.cons (ih f (Nat.le_of_succ_le_succ hf))

theorem ischain_snoc {s m c : α} {r : β} {l : List (Seg α β)}
    (h : IsChain s l m) : IsChain s (l ++ [(⟨m, c, r⟩ : Seg α β)]) c := by
  induction l generalizing s with
  | nil =>
    simp only [IsChain] at h
    subst h
    simp [IsChain]
  | cons seg rest ih =>
    simp only [IsChain] at h ⊢
    exact ⟨h.1, ih h.2⟩

theorem revchain_ischain {root k : α} {l : List (Seg α β)}
    (h : RevChainTo root l k) : IsChain root l.reverse k := by
  induction h with
  | nil => simp [IsChain]
  | @cons rest p k r _ ih =>
    simp only [List.reverse_cons]
    exact ischain_snoc ih

theorem walkB_ischain {P : PMap α β} {root k : α} {n : Nat}
    (h : ReachN P root k n) :
    ∀ fuel, n ≤ fuel → IsChain k (walkB fuel P k) root := by
  induction h with
  | zero hr =>
    intro fuel _
    cases fuel with
    | zero => simp [walkB, IsChain]
    | succ f => simp [walkB, hr, IsChain]
  | @succ k p r n hk _ ih =>
    intro fuel hf
    cases fuel with
    | zero => omega
    | succ f =>
      simp only [walkB, hk]
      simp only [IsChain]
      exact ⟨by trivial, ih f (Nat.le_of_succ_le_succ hf)⟩

theorem ischain_append {s m e : α} {l1 l2 : List (Seg α β)}
    (h1 : IsChain s l1 m) (h2 : IsChain m l2 e) :
    IsChain s (l1 ++ l2) e := by
  induction l1 generalizing s with
  | nil =>
    simp only [IsChain] at h1
    subst h1
    simpa using h2
  | cons seg rest ih =>
    simp only [IsChain] at h1 ⊢
    exact ⟨h1.1, ih h1.2⟩

theorem reconstruct_ischain {s e m : α} {fP bP : PMap α β}
    (hf : PMapWF s fP) (hb : PMapWF e bP)
    (hmf : (pfind fP m).isSome) (hmb : (pfind bP m).isSome) :
    IsChain s (reconstruct_path m fP bP) e := by
  obtain ⟨n1, hn1, hr1⟩ := pmapwf_reach hf m hmf
  obtain ⟨n2, hn2, hr2⟩ := pmapwf_reach hb m hmb
  exact ischain_append
    (revchain_ischain (walkF_revchain hr1 fP.length (by omega)))
    (walkB_ischain hr2 bP.length (by omega))

theorem expandGo_spec {root : α} :
    ∀ (pairs : List (α × α × β)) (own other : PMap α β) (nf : List α)
      (own2 : PMap α β) (nf2 : List α) (meet : Option α),
      expandGo pairs own other nf = (own2, nf2, meet) →
      PMapWF root own →
      (∀ pr ∈ pairs, (pfind own pr.1).isSome) →
      (∀ k ∈ nf, (pfind own k).isSome) →
      PMapWF root own2
      ∧ (∀ k, (pfind own k).isSome → (pfind own2 k).isSome)
      ∧ (∀ k ∈ nf2, (pfind own2 k).isSome)
      ∧ (∀ mm, meet = some mm →
            (pfind own2 mm).isSome ∧ (pfind other mm).isSome) := by
  intro pairs
  induction pairs with
  | nil =>
    intro own other nf own2 nf2 meet heq hwf _ hnf
    simp only [expandGo] at heq
    injection heq with e1 e23
    injection e23 with e2 e3
    subst e1
    subst e2
    subst e3
    refine ⟨hwf, fun k hk => hk, hnf, ?_⟩
    intro mm hmm
    cases hmm
  | cons pr rest ih =>
    intro own other nf own2 nf2 meet heq hwf hpairs hnf
    obtain ⟨src, nid, rel⟩ := pr
    simp only [expandGo] at heq
    by_cases h1 : (pfind own nid).isSome
    · rw [if_pos h1] at heq
      exact ih own other nf own2 nf2 meet heq hwf
        (fun pr hpr => hpairs pr (List.mem_cons_of_mem _ hpr)) hnf
    · rw [if_neg h1] at heq
      have hnone : pfind own nid = none := by
        cases hh : pfind own nid with
        | none => rfl
        | some v =>
          rw [hh] at h1
          simp at h1
      have hsrc : (pfind own src).isSome := hpairs _ (List.mem_cons_self _ _)
      have hwf1 : PMapWF root ((nid, some (src, rel)) :: own) :=
        PMapWF.step hsrc hnone hwf
      have hmono1 : ∀ k, (pfind own k).isSome →
          (pfind ((nid, some (src, rel)) :: own) k).isSome :=
        fun k hk => pfind_cons_mono _ _ hk
      have hnid1 : (pfind ((nid, some (src, rel)) :: own) nid).isSome := by
        rw [pfind_cons, if_pos rfl]
        rfl
      have hnf1 : ∀ k ∈ nf ++ [nid],
          (pfind ((nid, some (src, rel)) :: own) k).isSome := by
        intro k hk
        rcases List.mem_append.mp hk with hk | hk
        · exact hmono1 k (hnf k hk)
        · rcases List.mem_singleton.mp hk with rfl
          exact hnid1
      by_cases h2 : (pfind other nid).isSome
      · rw [if_pos h2] at heq
        injection heq with e1 e23
        injection e23 with e2 e3
        subst e1
        subst e2
        subst e3
        refine ⟨hwf1, hmono1, hnf1, ?_⟩
        rintro mm hmm
        injection hmm with hmm
        subst hmm
        exact ⟨hnid1, h2⟩
      · rw [if_neg h2] at heq
        obtain ⟨hwf2, hmono2, hnf2x, hmeet2⟩ :=
          ih _ other _ own2 nf2 meet heq hwf1
            (fun pr hpr => hmono1 _ (hpairs pr (List.mem_cons_of_mem _ hpr)))
            hnf1
        exact ⟨hwf2, fun k hk => hmono2 k (hmono1 k hk), hnf2x, hmeet2⟩

theorem expand_frontier_spec {root : α} (g : α → List (α × β))
    (frontier : List α) (own other : PMap α β)
    {own2 : PMap α β} {nf2 : List α} {meet : Option α}
    (heq : expand_frontier g frontier own other = (own2, nf2, meet))
    (hwf : PMapWF root own)
    (hfr : ∀ k ∈ frontier, (pfind own k).isSome) :
    PMapWF root own2
    ∧ (∀ k, (pfind own k).isSome → (pfind own2 k).isSome)
    ∧ (∀ k ∈ nf2, (pfind own2 k).isSome)
    ∧ (∀ mm, meet = some mm →
          (pfind own2 mm).isSome ∧ (pfind other mm).isSome) := by
  have heq2 : expandGo
      (((frontier.take MAX_FRONTIER_SIZE).map fun src =>
          (g src).map fun nr => (src, nr.1, nr.2)).flatten)
      own other [] = (own2, nf2, meet) := by
    simpa [expand_frontier] using heq
  refine expandGo_spec _ own other [] own2 nf2 meet heq2 hwf ?_ (by simp)
  · intro pr hpr
    rw [List.mem_flatten] at hpr
    obtain ⟨l, hl, hprl⟩ := hpr
    rw [List.mem_map] at hl
    obtain ⟨src, hsrc, rfl⟩ := hl
    rw [List.mem_map] at hprl
    obtain ⟨nr, _, rfl⟩ := hprl
    exact hfr src (List.take_subset _ _ hsrc)

theorem bfsLoop_ischain (g : α → List (α × β)) {s e : α} :
    ∀ (fuel : Nat) (fF bF : List α) (fP bP : PMap α β) (segs : List (Seg α β)),
      bfsLoop g fuel fF bF fP bP = some segs →
      PMapWF s fP → PMapWF e bP →
      (∀ k ∈ fF, (pfind fP k).isSome) →
      (∀ k ∈ bF, (pfind bP k).isSome) →
      IsChain s segs e := by
  intro fuel
  induction fuel with
  | zero =>
    intro _ _ _ _ _ h
    simp [bfsLoop] at h
  | succ f ih =>
    intro fF bF fP bP segs h hwfF hwfB hfF hbF
    simp only [bfsLoop] at h
    by_cases hlen : fF.length ≤ bF.length
    · rw [if_pos hlen] at h
      rcases heq : expand_frontier g fF fP bP with ⟨fP2, fF2, meet⟩
      rw [heq] at h
      obtain ⟨hwf2, _, hnf2, hmeet2⟩ := expand_frontier_spec g fF fP bP heq hwfF hfF
      cases meet with
      | some m =>
        simp only at h
        injection h with h
        subst h
        obtain ⟨hm1, hm2⟩ := hmeet2 m rfl
        exact reconstruct_ischain hwf2 hwfB hm1 hm2
      | none =>
        simp only at h
        by_cases hemp : fF2 = []
        · rw [if_pos hemp] at h
          cases h
        · rw [if_neg hemp] at h
          exact ih fF2 bF fP2 bP segs h hwf2 hwfB hnf2 hbF
    · rw [if_neg hlen] at h
      rcases heq : expand_frontier g bF bP fP with ⟨bP2, bF2, meet⟩
      rw [heq] at h
      obtain ⟨hwf2, _, hnf2, hmeet2⟩ := expand_frontier_spec g bF bP fP heq hwfB hbF
      cases meet with
      | some m =>
        simp only at h
        injection h with h
        subst h
        obtain ⟨hm1, hm2⟩ := hmeet2 m rfl
        exact reconstruct_ischain hwfF hwf2 hm2 hm1
      | none =>
        simp only at h
        by_cases hemp : bF2 = []
        · rw [if_pos hemp] at h
          cases h
        · rw [if_neg hemp] at h
          exact ih fF bF2 fP bP2 segs h hwfF hwf2 hfF hnf2

end Spanner

namespace Spanner

theorem ischain_head {α β : Type} [DecidableEq α] {s e : α}
    {l : List (Seg α β)} (h : IsChain s l e) (hne : l ≠ []) :
    (l.head hne).fro = s := by
  cases l with
  | nil => exact absurd rfl hne
  | cons seg rest =>
    simp only [IsChain] at h
    simpa using h.1

theorem ischain_last {α β : Type} [DecidableEq α] {s e : α}
    {l : List (Seg α β)} (h : IsChain s l e) (hne : l ≠ []) :
    (l.getLast hne).tgt = e := by
  induction l generalizing s with
  | nil => exact absurd rfl hne
  | cons seg rest ih =>
    simp only [IsChain] at h
    cases rest with
    | nil =>
      simp only [IsChain] at h
      simpa [List.getLast] using h.2
    | cons seg2 rest2 =>
      rw [List.getLast_cons (by simp)]
      exact ih h.2 (by simp)

theorem ischain_consec {α β : Type} [DecidableEq α] {s e : α}
    {l : List (Seg α β)} (h : IsChain s l e) :
    ∀ i (hi : i + 1 < l.length),
      (l.get ⟨i, Nat.lt_of_succ_lt hi⟩).tgt = (l.get ⟨i + 1, hi⟩).fro := by
  induction l generalizing s with
  | nil =>
    intro i hi
    simp at hi
  | cons seg rest ih =>
    intro i hi
    simp only [IsChain] at h
    cases i with
    | zero =>
      cases rest with
      | nil => simp at hi
      | cons seg2 rest2 =>
        simp only [IsChain] at h
        simpa [List.get] using h.2.1.symm
    | succ j =>
      have hj : j + 1 < rest.length := by simpa using Nat.lt_of_succ_lt_succ hi
      simpa [List.get] using ih h.2 j hj

/-- C5: For every non-`None`, non-empty segment list returned by the
bidirectional BFS of the Path Engine for `(start_id, end_id)`, the segments
form a simple path: `segments[0].from == start_id`,
`segments[-1].to == end_id`, and `segments[i].to == segments[i+1].from` for
every consecutive pair. -/
theorem claim_C5_path_segments_form_path {α β : Type} [DecidableEq α]
    (g : α → List (α × β)) (start_id end_id : α) (segs : List (Seg α β))
    (h : bfs_shortest_path g start_id end_id = some segs) (hne : segs ≠ []) :
    (segs.head hne).fro = start_id
    ∧ (segs.getLast hne).tgt = end_id
    ∧ ∀ i (hi : i + 1 < segs.length),
        (segs.get ⟨i, Nat.lt_of_succ_lt hi⟩).tgt = (segs.get ⟨i + 1, hi⟩).fro := by
  have hch : IsChain start_id segs end_id := by
    refine bfsLoop_ischain g MAX_DEPTH [start_id] [end_id]
      [(start_id, none)] [(end_id, none)] segs h PMapWF.base PMapWF.base ?_ ?_
    · intro k hk
      rcases List.mem_singleton.mp hk with rfl
      simp [pfind]
    · intro k hk
      rcases List.mem_singleton.mp hk with rfl
      simp [pfind]
  exact ⟨ischain_head hch hne, ischain_last hch hne, ischain_consec hch⟩

/-- Witness for `claim_C5_path_segments_form_path`: on the 2-edge chain
a — b — c the BFS returns the two-segment path a→b→c, which satisfies all
three shape properties. -/
theorem claim_C5_path_segments_form_path_witness :
    ((([⟨"a", "b", "r1"⟩, ⟨"b", "c", "r2"⟩] : List (Seg String String)).head
        (by simp)).fro = "a")
    ∧ ((([⟨"a", "b", "r1"⟩, ⟨"b", "c", "r2"⟩] : List (Seg String String)).getLast
        (by simp)).tgt = "c") := by
  have h := claim_C5_path_segments_form_path chain2 "a" "c"
    [⟨"a", "b", "r1"⟩, ⟨"b", "c", "r2"⟩] (by decide) (by simp)
  exact ⟨h.1, h.2.1⟩

/-- C3 (code-bug evidence): `MAX_DEPTH = 4`, and the BFS loop
`for depth in range(MAX_DEPTH)` performs 4 frontier expansions **in total**
(not 4 per side): on the 5-edge chain n0—…—n5 — a shortest path of 5 ≤ 8
edges with tiny frontiers, far below `MAX_FRONTIER_SIZE` — the BFS returns
`None` instead of the path, contradicting the claim and the code's own
comment `# Max hops per BFS direction (total path length up to ~8)`. -/
theorem claim_C3_depth_failing_input :
    MAX_DEPTH = 4
    ∧ IsChain "n0" chain5Path "n5"
    ∧ SegsInGraph chain5 chain5Path
    ∧ chain5Path.length = 5
    ∧ bfs_shortest_path chain5 "n0" "n5" = none := by
  refine ⟨rfl, by decide, by decide, rfl, by decide⟩

end Spanner

namespace GraphBuilder

theorem updAssoc_keys (nodes : List (String × JsonNode)) (k : String) (s : ℚ) :
    (updAssoc nodes k s).map Prod.fst = nodes.map Prod.fst := by
  induction nodes with
  | nil => rfl
  | cons kv rest ih =>
    obtain ⟨a, v⟩ := kv
    simp only [updAssoc]
    split
    · simp
    · simpa using ih

theorem updAssoc_id_inv {nodes : List (String × JsonNode)} {k : String} {s : ℚ}
    (h : ∀ kv ∈ nodes, kv.2.id = kv.1) :
    ∀ kv ∈ updAssoc nodes k s, kv.2.id = kv.1 := by
  induction nodes with
  | nil => intro kv hkv; cases hkv
  | cons av rest ih =>
    obtain ⟨a, v⟩ := av
    intro kv hkv
    simp only [updAssoc] at hkv
    by_cases ha : a = k
    · rw [if_pos ha] at hkv
      rcases List.mem_cons.mp hkv with rfl | hkv
      · simpa using h (a, v) (List.mem_cons_self _ _)
      · exact h kv (List.mem_cons_of_mem _ hkv)
    · rw [if_neg ha] at hkv
      rcases List.mem_cons.mp hkv with rfl | hkv
      · exact h (a, v) (List.mem_cons_self _ _)
      · exact ih (fun kv hkv => h kv (List.mem_cons_of_mem _ hkv)) kv hkv

theorem lookup_mem_keys {nodes : List (String × JsonNode)} {k : String} {v : JsonNode}
    (h : nodes.lookup k = some v) : k ∈ nodes.map Prod.fst := by
  induction nodes with
  | nil => cases h
  | cons av rest ih =>
    obtain ⟨a, w⟩ := av
    simp only [List.lookup] at h
    rcases hk : (k == a) with _ | _
    · rw [hk] at h
      simp only [List.map_cons, List.mem_cons]
      exact Or.inr (ih h)
    · simp only [List.map_cons, List.mem_cons]
      exact Or.inl (by simpa using (beq_iff_eq ..).mp hk)

theorem buildStep_inv (cid : String) (ms : Int) (lg : ℚ → ℚ)
    (pd : String → Option PaperDetail) (rel : RelRow)
    (acc : List (String × JsonNode) × List JsonEdge)
    (hid : ∀ kv ∈ acc.1, kv.2.id = kv.1)
    (hcid : cid ∈ acc.1.map Prod.fst)
    (hedges : ∀ e ∈ acc.2,
        e.source ∈ acc.1.map Prod.fst ∧ e.target ∈ acc.1.map Prod.fst) :
    (∀ kv ∈ (buildStep cid ms lg pd acc rel).1, kv.2.id = kv.1)
    ∧ cid ∈ (buildStep cid ms lg pd acc rel).1.map Prod.fst
    ∧ (∀ e ∈ (buildStep cid ms lg pd acc rel).2,
        e.source ∈ (buildStep cid ms lg pd acc rel).1.map Prod.fst
        ∧ e.target ∈ (buildStep cid ms lg pd acc rel).1.map Prod.fst) := by
  obtain ⟨nodes, edges⟩ := acc
  simp only [buildStep]
  rcases hl : nodes.lookup rel.other_entity_id with _ | existing
  · -- new key appended at the end of the node dict
    simp only
    constructor
    · intro kv hkv
      rcases List.mem_append.mp hkv with hkv | hkv
      · exact hid kv hkv
      · rcases List.mem_singleton.mp hkv with rfl
        rfl
    · constructor
      · simp only [List.map_append]
        exact List.mem_append.mpr (Or.inl hcid)
      · intro e he
        rcases List.mem_append.mp he with he | he
        · obtain ⟨h1, h2⟩ := hedges e he
          simp only [List.map_append]
          exact ⟨List.mem_append.mpr (Or.inl h1), List.mem_append.mpr (Or.inl h2)⟩
        · rcases List.mem_singleton.mp he with rfl
          simp only [List.map_append]
          have hoth : rel.other_entity_id ∈ nodes.map Prod.fst ++ [rel.other_entity_id] := by
            simp
          have hc : cid ∈ nodes.map Prod.fst ++ [rel.other_entity_id] :=
            List.mem_append.mpr (Or.inl hcid)
          split
          · exact ⟨by simp at hc ⊢; exact hc, by simp at hoth ⊢⟩
          · exact ⟨by simp at hoth ⊢, by simp at hc ⊢; exact hc⟩
  · -- existing key: possibly update size in place
    simp only
    have hoth0 : rel.other_entity_id ∈ nodes.map Prod.fst := lookup_mem_keys hl
    split
    · -- size updated in place
      refine ⟨updAssoc_id_inv hid, ?_, ?_⟩
      · rw [updAssoc_keys]
        exact hcid
      · intro e he
        rw [updAssoc_keys]
        rcases List.mem_append.mp he with he | he
        · exact hedges e he
        · rcases List.mem_singleton.mp he with rfl
          split
          · exact ⟨hcid, hoth0⟩
          · exact ⟨hoth0, hcid⟩
    · refine ⟨hid, hcid, ?_⟩
      intro e he
      rcases List.mem_append.mp he with he | he
      · exact hedges e he
      · rcases List.mem_singleton.mp he with rfl
        split
        · exact ⟨hcid, hoth0⟩
        · exact ⟨hoth0, hcid⟩

end GraphBuilder

namespace GraphBuilder

theorem buildFold_inv (cid : String) (ms : Int) (lg : ℚ → ℚ)
    (pd : String → Option PaperDetail) :
    ∀ (rels : List RelRow) (acc : List (String × JsonNode) × List JsonEdge),
      (∀ kv ∈ acc.1, kv.2.id = kv.1) →
      cid ∈ acc.1.map Prod.fst →
      (∀ e ∈ acc.2, e.source ∈ acc.1.map Prod.fst ∧ e.target ∈ acc.1.map Prod.fst) →
      (∀ kv ∈ (rels.foldl (buildStep cid ms lg pd) acc).1, kv.2.id = kv.1)
      ∧ (∀ e ∈ (rels.foldl (buildStep cid ms lg pd) acc).2,
          e.source ∈ (rels.foldl (buildStep cid ms lg pd) acc).1.map Prod.fst
          ∧ e.target ∈ (rels.foldl (buildStep cid ms lg pd) acc).1.map Prod.fst) := by
  intro rels
  induction rels with
  | nil =>
    intro acc h1 _ h3
    exact ⟨h1, h3⟩
  | cons rel rest ih =>
    intro acc h1 h2 h3
    obtain ⟨g1, g2, g3⟩ := buildStep_inv cid ms lg pd rel acc h1 h2 h3
    simpa only [List.foldl_cons] using
      ih (buildStep cid ms lg pd acc rel) g1 g2 g3

theorem key_to_node {L : List (String × JsonNode)} {k : String}
    (hid : ∀ kv ∈ L, kv.2.id = kv.1) (hk : k ∈ L.map Prod.fst) :
    ∃ n ∈ L.map Prod.snd, n.id = k := by
  rw [List.mem_map] at hk
  obtain ⟨kv, hkv, rfl⟩ := hk
  exact ⟨kv.2, List.mem_map_of_mem _ hkv, hid kv hkv⟩

/-- C6: For every payload returned by `build_graph_payload`, every edge's
source id and target id equal the id of some node in the payload's `nodes`
list (no dangling references). -/
theorem claim_C6_edge_endpoints_in_nodes (lg : ℚ → ℚ)
    (center_entity : CenterEntity) (related_entities : List RelRow)
    (paper_details : String → Option PaperDetail) :
    ∀ e ∈ (build_graph_payload lg center_entity related_entities paper_details).edges,
      (∃ n ∈ (build_graph_payload lg center_entity related_entities paper_details).nodes,
          n.id = e.source)
      ∧ (∃ n ∈ (build_graph_payload lg center_entity related_entities paper_details).nodes,
          n.id = e.target) := by
  intro e he
  obtain ⟨hid, hmem⟩ := buildFold_inv center_entity.entity_id
    (max_score_of related_entities) lg paper_details related_entities
    ([(center_entity.entity_id, center_node_of center_entity)], [])
    (by
      intro kv hkv
      rcases List.mem_singleton.mp hkv with rfl
      rfl)
    (by simp)
    (by intro e he; cases he)
  have h2 := hmem e he
  exact ⟨key_to_node hid h2.1, key_to_node hid h2.2⟩

/-- Witness for `claim_C6_edge_endpoints_in_nodes` on a one-relationship
payload. -/
theorem claim_C6_edge_endpoints_in_nodes_witness :
    (∃ n ∈ (build_graph_payload id centerW [relW] fun _ => none).nodes,
        n.id = (((build_graph_payload id centerW [relW] fun _ => none).edges.head
          (by decide)).source))
    ∧ (∃ n ∈ (build_graph_payload id centerW [relW] fun _ => none).nodes,
        n.id = (((build_graph_payload id centerW [relW] fun _ => none).edges.head
          (by decide)).target)) :=
  claim_C6_edge_endpoints_in_nodes id centerW [relW] (fun _ => none)
    ((build_graph_payload id centerW [relW] fun _ => none).edges.head (by decide))
    (List.head_mem _)

end GraphBuilder

namespace GraphBuilder

theorem pathNodes_length (ed : String → Option EntityDetail) :
    ∀ (j : Nat) (l : List String), (pathNodes ed j l).length = l.length := by
  intro j l
  induction l generalizing j with
  | nil => rfl
  | cons pid rest ih => simp [pathNodes, ih]

theorem pathNodes_map_id (ed : String → Option EntityDetail) :
    ∀ (j : Nat) (l : List String), (pathNodes ed j l).map (·.id) = l := by
  intro j l
  induction l generalizing j with
  | nil => rfl
  | cons pid rest ih => simp [pathNodes, mkPathNode, ih]

theorem pathNodes_get (ed : String → Option EntityDetail) :
    ∀ (l : List String) (j i : Nat) (h1 : i < (pathNodes ed j l).length)
      (h2 : i < l.length),
      (pathNodes ed j l).get ⟨i, h1⟩ = mkPathNode ed (j + i) (l.get ⟨i, h2⟩) := by
  intro l
  induction l with
  | nil =>
    intro j i h1 h2
    simp at h2
  | cons pid rest ih =>
    intro j i h1 h2
    cases i with
    | zero => simp [pathNodes]
    | succ k =>
      have hk1 : k < (pathNodes ed (j + 1) rest).length := by
        simpa [pathNodes] using h1
      have hk2 : k < rest.length := by simpa using h2
      have := ih (j + 1) k hk1 hk2
      simp only [pathNodes, List.get_cons_succ]
      rw [this]
      congr 1
      omega

/-- C1 (spec-modelled): `build_path_graph_payload(path_ids, segments,
entity_details, paper_details)` returns a payload whose nodes appear in path
order with the first node having `is_expanded=true` and `size=1.5` and every
other node having `size=1.0` and `is_expanded=false`, and for each segment
an edge with direction `"->"` whose confidence is derived from the evidence
count, saturating at 1.0 at 10 PMIDs. -/
theorem claim_C1_build_path_graph_payload (path_ids : List String)
    (segments : List PathSegment)
    (entity_details : String → Option EntityDetail)
    (paper_details : String → Option PaperDetail) :
    ((build_path_graph_payload path_ids segments entity_details
        paper_details).nodes.map (·.id) = path_ids)
    ∧ (∀ i (h : i < (build_path_graph_payload path_ids segments entity_details
          paper_details).nodes.length),
        (((build_path_graph_payload path_ids segments entity_details
            paper_details).nodes.get ⟨i, h⟩).size = if i = 0 then 1.5 else 1.0)
        ∧ ((((build_path_graph_payload path_ids segments entity_details
            paper_details).nodes.get ⟨i, h⟩).is_expanded = true) ↔ i = 0))
    ∧ ((build_path_graph_payload path_ids segments entity_details
          paper_details).edges.length = segments.length)
    ∧ (∀ i (hi : i < (build_path_graph_payload path_ids segments entity_details
          paper_details).edges.length) (hj : i < segments.length),
        (((build_path_graph_payload path_ids segments entity_details
            paper_details).edges.get ⟨i, hi⟩).direction = "->")
        ∧ (((build_path_graph_payload path_ids segments entity_details
            paper_details).edges.get ⟨i, hi⟩).confidence_score
              = min (((segments.get ⟨i, hj⟩).pmids.length : ℚ) / 10) 1)
        ∧ (10 ≤ (segments.get ⟨i, hj⟩).pmids.length →
            ((build_path_graph_payload path_ids segments entity_details
              paper_details).edges.get ⟨i, hi⟩).confidence_score = 1)) := by
  refine ⟨pathNodes_map_id entity_details 0 path_ids, ?_, ?_, ?_⟩
  · intro i h
    have h2 : i < path_ids.length := by
      rw [← pathNodes_length entity_details 0 path_ids]
      exact h
    have hget := pathNodes_get entity_details path_ids 0 i h h2
    constructor
    · rw [show (build_path_graph_payload path_ids segments entity_details
          paper_details).nodes.get ⟨i, h⟩
          = mkPathNode entity_details (0 + i) (path_ids.get ⟨i, h2⟩) from hget]
      simp [mkPathNode]
    · rw [show (build_path_graph_payload path_ids segments entity_details
          paper_details).nodes.get ⟨i, h⟩
          = mkPathNode entity_details (0 + i) (path_ids.get ⟨i, h2⟩) from hget]
      simp [mkPathNode]
  · simp [build_path_graph_payload]
  · intro i hi hj
    have hedge : (build_path_graph_payload path_ids segments entity_details
        paper_details).edges.get ⟨i, hi⟩
        = mkPathEdge paper_details (segments.get ⟨i, hj⟩) := by
      simp [build_path_graph_payload, List.get_eq_getElem, List.getElem_map]
    rw [hedge]
    refine ⟨rfl, rfl, ?_⟩
    intro h10
    have hge : (1 : ℚ) ≤ ((segments.get ⟨i, hj⟩).pmids.length : ℚ) / 10 := by
      rw [le_div_iff₀ (by norm_num)]
      exact_mod_cast by simpa using h10
    simpa [mkPathEdge] using min_eq_right hge

/-- Witness for `claim_C1_build_path_graph_payload` on the concrete path
a → b with one segment carrying one PMID. -/
theorem claim_C1_build_path_graph_payload_witness :
    ((build_path_graph_payload ["a", "b"] [⟨"a", "b", "x", ["p1"]⟩]
        (fun _ => none) fun _ => none).nodes.map (·.id) = ["a", "b"])
    ∧ (((build_path_graph_payload ["a", "b"] [⟨"a", "b", "x", ["p1"]⟩]
        (fun _ => none) fun _ => none).nodes.get ⟨0, by decide⟩).size = 1.5)
    ∧ (((build_path_graph_payload ["a", "b"] [⟨"a", "b", "x", ["p1"]⟩]
        (fun _ => none) fun _ => none).edges.get ⟨0, by decide⟩).direction = "->") := by
  have h := claim_C1_build_path_graph_payload ["a", "b"] [⟨"a", "b", "x", ["p1"]⟩]
    (fun _ => none) (fun _ => none)
  refine ⟨h.1, ?_, (h.2.2.2 0 (by decide) (by decide)).1⟩
  have h0 := (h.2.1 0 (by decide)).1
  simpa using h0

end GraphBuilder

namespace Overview

theorem mem_insertDesc {key : RagChunk → ℚ} {x a : RagChunk}
    {l : List RagChunk} (h : a ∈ insertDesc key x l) : a = x ∨ a ∈ l := by
  induction l with
  | nil =>
    simp only [insertDesc, List.mem_singleton] at h
    exact Or.inl h
  | cons y ys ih =>
    simp only [insertDesc] at h
    by_cases hk : key x ≥ key y
    · rw [if_pos hk] at h
      rcases List.mem_cons.mp h with rfl | h
      · exact Or.inl rfl
      · exact Or.inr h
    · rw [if_neg hk] at h
      rcases List.mem_cons.mp h with rfl | h
      · exact Or.inr (List.mem_cons_self _ _)
      · rcases ih h with h | h
        · exact Or.inl h
        · exact Or.inr (List.mem_cons_of_mem _ h)

theorem mem_sortDesc {key : RagChunk → ℚ} {a : RagChunk} :
    ∀ {l : List RagChunk}, a ∈ sortDesc key l → a ∈ l := by
  intro l
  induction l with
  | nil => intro h; cases h
  | cons x xs ih =>
    intro h
    rcases mem_insertDesc h with rfl | h
    · exact List.mem_cons_self _ _
    · exact List.mem_cons_of_mem _ (ih h)

/-- C2 counterexample: with a configured environment, a non-center edge
selection s → t, one retrieved chunk living in document d1, and an *empty*
doc-entity table (so no candidate document co-mentions both endpoints), the
eligible set is empty, the filter is skipped (`if eligible_doc_ids:`), and
`_retrieve_rag_chunks` returns the chunk even though its document does not
co-mention the endpoints — contradicting the claim as stated. -/
theorem claim_C2_counterexample :
    retrieve_rag_chunks envC2 ctxC2
      = Except.ok [⟨"c1", "d1", "paper", "txt", "S1", 0⟩]
    ∧ (("d1", "s") ∉ envC2.doc_entity)
    ∧ ctxC2.center_overview = false := by
  refine ⟨rfl, by decide, rfl⟩

/-- C2 (amended): for a node/edge selection with two endpoints (not a
center-node overview), every chunk returned by `_retrieve_rag_chunks` has a
`doc_id` whose document co-mentions both endpoint entity ids — *provided*
the computed eligible set is non-empty (i.e. the co-mention query succeeded
and at least one candidate document co-mentions both endpoints); when the
eligible set is empty the filter is skipped and the chunks are returned
unfiltered, and for center-node selections the filter is skipped. -/
theorem claim_C2_comention_filter (env : RagEnv) (ctx : RagSelection)
    (chunks : List RagChunk) (c : RagChunk)
    (hres : retrieve_rag_chunks env ctx = Except.ok chunks)
    (hc : c ∈ chunks)
    (hne : eligibleDocIds env ctx ≠ []) :
    (c.doc_id, ctx.source) ∈ env.doc_entity
    ∧ (c.doc_id, ctx.target) ∈ env.doc_entity := by
  unfold retrieve_rag_chunks at hres
  split_ifs at hres with h1
  · rw [← Except.ok.inj hres] at hc
    cases hc
  · rcases heq : env.embed_ann with msg | result0
    · rw [heq] at hres
      simp only [retrieveRest] at hres
      rw [← Except.ok.inj hres] at hc
      cases hc
    · rw [heq] at hres
      simp only [retrieveRest] at hres
      have heli : eligibleDocIds env ctx
          = eligibleOf env ctx
              (((chunksOf env (result0.filter fun n => n.1 ≠ "")).map
                (·.doc_id)).dedup) := by
        unfold eligibleDocIds preChunks neighborPairs
        rw [heq]
      rw [heli] at hne
      split_ifs at hres with h2 h3 h4 h5
      all_goals try (rw [← Except.ok.inj hres] at hc; cases hc)
      -- remaining: the eligible set is non-empty (split_ifs resolved the
      -- `if eligible_doc_ids:` condition with `hne`), so the filter applied
      rw [← Except.ok.inj hres] at hc
      have h7 := mem_sortDesc (List.take_subset _ _ hc)
      obtain ⟨_, hp⟩ := List.mem_filter.mp h7
      have hmem : c.doc_id ∈ eligibleOf env ctx
          (((chunksOf env (result0.filter fun n => n.1 ≠ "")).map
            (·.doc_id)).dedup) := by
        simpa using hp
      unfold eligibleOf at hmem
      split_ifs at hmem with hcen hraise
      · cases hmem
      · cases hmem
      · obtain ⟨_, hpred⟩ := List.mem_filter.mp hmem
        simp only [Bool.and_eq_true, decide_eq_true_eq] at hpred
        exact ⟨by simpa using hpred.1.2, by simpa using hpred.2⟩

/-- Witness for `claim_C2_comention_filter`: same scenario as the
counterexample but with d1 co-mentioning both endpoints — the filter applies
and the surviving chunk's document co-mentions s and t. -/
theorem claim_C2_comention_filter_witness :
    (("d1", "s") ∈ envC2f.doc_entity ∧ ("d1", "t") ∈ envC2f.doc_entity) := by
  have h := claim_C2_comention_filter envC2f ctxC2
    [⟨"c1", "d1", "paper", "txt", "S1", 0⟩]
    ⟨"c1", "d1", "paper", "txt", "S1", 0⟩ rfl (by decide) (by decide)
  simpa using h

/-- C9: if the vector endpoint configuration
(`VERTEX_VECTOR_ENDPOINT_RESOURCE` or `VERTEX_VECTOR_DEPLOYED_INDEX_ID`) is
unset, or the embedding or ANN call raises, `_retrieve_rag_chunks` returns
the empty list and does not propagate an exception. -/
theorem claim_C9_rag_failures_return_empty (env : RagEnv) (ctx : RagSelection) :
    (env.vector_endpoint_resource = "" ∨ env.vector_deployed_index_id = "" →
      retrieve_rag_chunks env ctx = Except.ok [])
    ∧ (∀ msg, env.embed_ann = Except.error msg →
      retrieve_rag_chunks env ctx = Except.ok []) := by
  constructor
  · intro h
    unfold retrieve_rag_chunks
    rw [if_pos h]
  · intro msg h
    unfold retrieve_rag_chunks
    split_ifs with h1
    · rfl
    · rw [h]
      rfl

/-- Witness for `claim_C9_rag_failures_return_empty`: one environment with a
raising ANN call, one with an unset endpoint resource. -/
theorem claim_C9_rag_failures_return_empty_witness :
    retrieve_rag_chunks
      ⟨"ep", "idx", Except.error "ann down", [], false, [], false, 20⟩ ctxC2
      = Except.ok []
    ∧ retrieve_rag_chunks
      ⟨"", "idx", Except.ok [], [], false, [], false, 20⟩ ctxC2
      = Except.ok [] :=
  ⟨(claim_C9_rag_failures_return_empty _ ctxC2).2 "ann down" rfl,
   (claim_C9_rag_failures_return_empty _ ctxC2).1 (Or.inl rfl)⟩

end Overview

namespace Chunking

theorem rstrip_eq_rdropWhile (s : Str) :
    Py.rstrip s = List.rdropWhile Py.isSpace s := rfl

theorem dropWhile_eq_self_of_head {p : Char → Bool} {l : Str} (h : l ≠ [])
    (hh : ¬ (p (l.head h) = true)) : l.dropWhile p = l := by
  cases l with
  | nil => exact absurd rfl h
  | cons c r =>
    simp only [List.head_cons] at hh
    simp [List.dropWhile_cons, hh]

theorem rstrip_eq_self {l : Str} (h : l ≠ [])
    (hh : ¬ (Py.isSpace (l.getLast h) = true)) : Py.rstrip l = l := by
  unfold Py.rstrip
  have hrev : l.reverse ≠ [] := by simpa using h
  have hhead : ¬ (Py.isSpace (l.reverse.head hrev) = true) := by
    rwa [List.head_reverse]
  rw [dropWhile_eq_self_of_head hrev hhead, List.reverse_reverse]

theorem lstrip_eq_self {l : Str} (h : l ≠ [])
    (hh : ¬ (Py.isSpace (l.head h) = true)) : Py.lstrip l = l :=
  dropWhile_eq_self_of_head h hh

theorem lstrip_stripped_eq_self {l : Str} (h : StrippedP l) : Py.lstrip l = l := by
  cases hl : l with
  | nil => rfl
  | cons c r =>
    rw [← hl]
    exact lstrip_eq_self (by simp [hl]) (h.1 (by simp [hl]))

theorem lstrip_ne_nil_of_getLast {l : Str} (h : l ≠ [])
    (hh : ¬ (Py.isSpace (l.getLast h) = true)) : Py.lstrip l ≠ [] := by
  intro hnil
  have hall := List.dropWhile_eq_nil_iff.mp hnil
  exact hh (hall _ (List.getLast_mem h))

theorem lstrip_append {a b : Str} (ha : Py.lstrip a ≠ []) :
    Py.lstrip (a ++ b) = Py.lstrip a ++ b := by
  induction a with
  | nil => exact absurd rfl ha
  | cons c r ih =>
    by_cases hc : Py.isSpace c = true
    · have ha2 : Py.lstrip r ≠ [] := by
        unfold Py.lstrip at ha
        rwa [List.dropWhile_cons_of_pos hc] at ha
      show List.dropWhile Py.isSpace ((c :: r) ++ b)
          = List.dropWhile Py.isSpace (c :: r) ++ b
      rw [List.cons_append]
      simp only [List.dropWhile_cons_of_pos hc]
      exact ih ha2
    · show List.dropWhile Py.isSpace ((c :: r) ++ b)
          = List.dropWhile Py.isSpace (c :: r) ++ b
      rw [List.cons_append]
      simp only [List.dropWhile_cons_of_neg hc]
      rfl

theorem getLast_lstrip {l : Str} (h : Py.lstrip l ≠ []) (h2 : l ≠ []) :
    (Py.lstrip l).getLast h = l.getLast h2 := by
  obtain ⟨t, ht⟩ := List.dropWhile_suffix (l := l) (p := Py.isSpace)
  have h3 : t ++ Py.lstrip l ≠ [] := by
    simp only [ne_eq, List.append_eq_nil]
    rintro ⟨-, h4⟩
    exact h h4
  exact ((List.getLast_append' t _ h).symm).trans (List.getLast_congr _ h2 ht)

theorem stripped_strip (s : Str) : StrippedP (Py.strip s) := by
  constructor
  · intro h
    exact by simpa using List.head_dropWhile_not Py.isSpace (Py.rstrip s) h
  · intro h
    have h2 : Py.rstrip s ≠ [] := by
      intro hnil
      apply h
      unfold Py.strip
      rw [hnil]
      rfl
    show ¬ Py.isSpace ((Py.lstrip (Py.rstrip s)).getLast h) = true
    rw [getLast_lstrip h h2]
    have hfin := List.rdropWhile_last_not Py.isSpace s
      (show List.rdropWhile Py.isSpace s ≠ [] from h2)
    simpa using hfin

theorem strip_glue {a b : Str} (hane : a ≠ [])
    (halast : ¬ (Py.isSpace (a.getLast hane) = true))
    (hb : StrippedP b) (hbne : b ≠ []) :
    Py.strip (a ++ ' ' :: b) = Py.lstrip a ++ ' ' :: b := by
  have habne : a ++ ' ' :: b ≠ [] := by simp
  have hlast_b : (a ++ ' ' :: b).getLast habne = b.getLast hbne := by
    rw [List.getLast_append' a (' ' :: b) (by simp)]
    exact List.getLast_cons hbne
  unfold Py.strip
  rw [rstrip_eq_self habne (by rw [hlast_b]; exact hb.2 hbne)]
  exact lstrip_append (lstrip_ne_nil_of_getLast hane halast)

theorem strip_glue_stripped {a b : Str} (ha : StrippedP a) (hane : a ≠ [])
    (hb : StrippedP b) (hbne : b ≠ []) :
    Py.strip (a ++ ' ' :: b) = a ++ ' ' :: b := by
  rw [strip_glue hane (ha.2 hane) hb hbne, lstrip_stripped_eq_self ha]

theorem strip_sp_cons {b : Str} (hb : StrippedP b) (hbne : b ≠ []) :
    Py.strip (' ' :: b) = b := by
  have hne : (' ' :: b) ≠ [] := by simp
  unfold Py.strip
  rw [rstrip_eq_self hne (by
    rw [List.getLast_cons hbne]
    exact hb.2 hbne)]
  unfold Py.lstrip
  rw [List.dropWhile_cons_of_pos (by rfl)]
  exact lstrip_stripped_eq_self hb

end Chunking

namespace Chunking

theorem stripped_lstrip_glue {ov sent : Str} (h1 : Py.lstrip ov ≠ [])
    (hs : StrippedP sent) (hsne : sent ≠ []) :
    StrippedP (Py.lstrip ov ++ ' ' :: sent) := by
  constructor
  · intro h
    have hh : (Py.lstrip ov ++ ' ' :: sent).head h = (Py.lstrip ov).head h1 :=
      List.head_append_of_ne_nil h1
    rw [hh]
    exact by simpa using List.head_dropWhile_not Py.isSpace ov h1
  · intro h
    have hh : (Py.lstrip ov ++ ' ' :: sent).getLast h = sent.getLast hsne := by
      rw [List.getLast_append' _ _ (by simp)]
      exact List.getLast_cons hsne
    rw [hh]
    exact hs.2 hsne

theorem stripped_glue {a b : Str} (ha : StrippedP a) (hane : a ≠ [])
    (hb : StrippedP b) (hbne : b ≠ []) :
    StrippedP (a ++ ' ' :: b) := by
  have h1 : Py.lstrip a ≠ [] := by
    rw [lstrip_stripped_eq_self ha]
    exact hane
  have := stripped_lstrip_glue h1 hb hbne
  rwa [lstrip_stripped_eq_self ha] at this

theorem adjok_snoc {oc : Nat} {l : List Chunk} {x : Chunk} (h : AdjOK oc l)
    (hl : ∀ hne : l ≠ [], ChunkAdj oc (l.getLast hne) x) :
    AdjOK oc (l ++ [x]) := by
  induction l with
  | nil => exact trivial
  | cons a rest ih =>
    cases rest with
    | nil =>
      refine ⟨?_, trivial⟩
      simpa using hl (by simp)
    | cons b rest2 =>
      refine ⟨h.1, ih h.2 ?_⟩
      intro hne
      have h2 := hl (by simp)
      rwa [List.getLast_cons hne] at h2

theorem adjok_get {oc : Nat} :
    ∀ {l : List Chunk}, AdjOK oc l →
      ∀ i (hi : i + 1 < l.length),
        ChunkAdj oc (l.get ⟨i, Nat.lt_of_succ_lt hi⟩) (l.get ⟨i + 1, hi⟩) := by
  intro l
  induction l with
  | nil =>
    intro _ i hi
    simp at hi
  | cons a rest ih =>
    intro h i hi
    cases rest with
    | nil => simp at hi
    | cons b rest2 =>
      cases i with
      | zero => exact h.1
      | succ j =>
        have hj : j + 1 < (b :: rest2).length := by simpa using hi
        exact ih h.2 j hj

theorem chunkStep_inv (doc_id doc_type : String) (mc oc : Nat) (hoc : 0 < oc)
    (st : ChunkState) (sent : Str) (hss : StrippedP sent) (hsne : sent ≠ [])
    (hinv : StateInv oc st) :
    StateInv oc (chunkStep doc_id doc_type mc oc st sent) := by
  obtain ⟨hadj, hchunks, hcne, hcstr, hlast⟩ := hinv
  have hred : chunkStep doc_id doc_type mc oc st sent
      = (if st.cur ≠ [] ∧ (Py.strip (st.cur ++ ' ' :: sent)).length > mc then
          ({ chunks := st.chunks ++ [⟨mkChunkId doc_id st.idx, doc_id,
              doc_type, st.idx, st.cur, st.start, st.start + st.cur.length⟩],
             cur := Py.strip (st.cur.drop (st.cur.length - oc) ++ ' ' :: sent),
             start := max 0 ((st.start + st.cur.length)
                - (st.cur.drop (st.cur.length - oc)).length),
             idx := st.idx + 1 } : ChunkState)
        else { chunks := st.chunks, cur := Py.strip (st.cur ++ ' ' :: sent),
               start := st.start, idx := st.idx }) := rfl
  rw [hred]
  split_ifs with hcond
  · obtain ⟨hcur_ne, -⟩ := hcond
    have hcs := hcstr hcur_ne
    have hlenpos : 0 < st.cur.length := List.length_pos.mpr hcur_ne
    have hovne : st.cur.drop (st.cur.length - oc) ≠ [] := by
      simp only [ne_eq, List.drop_eq_nil_iff]
      omega
    have hovlast : (st.cur.drop (st.cur.length - oc)).getLast hovne
        = st.cur.getLast hcur_ne := List.getLast_drop hovne
    have hovlast_nws :
        ¬ (Py.isSpace ((st.cur.drop (st.cur.length - oc)).getLast hovne) = true) := by
      rw [hovlast]
      exact hcs.2 hcur_ne
    have hlstr_ne : Py.lstrip (st.cur.drop (st.cur.length - oc)) ≠ [] :=
      lstrip_ne_nil_of_getLast hovne hovlast_nws
    have hglue : Py.strip (st.cur.drop (st.cur.length - oc) ++ ' ' :: sent)
        = Py.lstrip (st.cur.drop (st.cur.length - oc)) ++ ' ' :: sent :=
      strip_glue hovne hovlast_nws hss hsne
    have hovlen : (st.cur.drop (st.cur.length - oc)).length = min oc st.cur.length := by
      rw [List.length_drop]
      omega
    refine ⟨?_, ?_, ?_, ?_, ?_⟩
    · exact adjok_snoc hadj fun hne => ⟨(hlast hne).1, (hlast hne).2⟩
    · intro ch hch
      rcases List.mem_append.mp hch with hch | hch
      · exact hchunks ch hch
      · rcases List.mem_singleton.mp hch with rfl
        exact ⟨hcs, hcur_ne, rfl⟩
    · intro _
      simp only [hglue]
      simp
    · intro h
      simp only [hglue]
      exact stripped_lstrip_glue hlstr_ne hss hsne
    · intro h
      rw [List.getLast_append_singleton]
      constructor
      · simp only [hglue]
        exact ⟨' ' :: sent, rfl⟩
      · simp only [hovlen]
        omega
  · by_cases hcur : st.cur = []
    · have hchempty : st.chunks = [] := by
        by_contra h2
        exact (hcne h2) hcur
      have hcand : Py.strip (st.cur ++ ' ' :: sent) = sent := by
        rw [hcur]
        exact strip_sp_cons hss hsne
      refine ⟨hadj, hchunks, ?_, ?_, ?_⟩
      · intro _
        simp only [hcand]
        exact hsne
      · intro _
        simp only [hcand]
        exact hss
      · intro h2
        exact absurd hchempty h2
    · have hcand : Py.strip (st.cur ++ ' ' :: sent) = st.cur ++ ' ' :: sent :=
        strip_glue_stripped (hcstr hcur) hcur hss hsne
      refine ⟨hadj, hchunks, ?_, ?_, ?_⟩
      · intro _
        simp only [hcand]
        simp
      · intro _
        simp only [hcand]
        exact stripped_glue (hcstr hcur) hcur hss hsne
      · intro h2
        refine ⟨?_, (hlast h2).2⟩
        simp only [hcand]
        exact ((hlast h2).1).trans (List.prefix_append _ _)

theorem foldl_chunkStep_inv (doc_id doc_type : String) (mc oc : Nat)
    (hoc : 0 < oc) :
    ∀ (sents : List Str) (st : ChunkState),
      (∀ s ∈ sents, StrippedP s ∧ s ≠ []) → StateInv oc st →
      StateInv oc (sents.foldl (chunkStep doc_id doc_type mc oc) st) := by
  intro sents
  induction sents with
  | nil =>
    intro st _ hinv
    exact hinv
  | cons s rest ih =>
    intro st hs hinv
    simp only [List.foldl_cons]
    exact ih _ (fun x hx => hs x (List.mem_cons_of_mem _ hx))
      (chunkStep_inv doc_id doc_type mc oc hoc st s
        (hs s (List.mem_cons_self _ _)).1 (hs s (List.mem_cons_self _ _)).2 hinv)

theorem split_sentences_stripped (t : Str) :
    ∀ s ∈ split_sentences t, StrippedP s ∧ s ≠ [] := by
  intro s hs
  unfold split_sentences at hs
  obtain ⟨hmem, hne⟩ := List.mem_filter.mp hs
  obtain ⟨s0, _, rfl⟩ := List.mem_map.mp hmem
  exact ⟨stripped_strip s0, by simpa using hne⟩

end Chunking

namespace Chunking

theorem initial_state_inv (oc : Nat) : StateInv oc ⟨[], [], 0, 0⟩ := by
  refine ⟨trivial, ?_, ?_, ?_, ?_⟩
  · intro ch hch
    cases hch
  · intro h
    exact absurd rfl h
  · intro h
    exact absurd rfl h
  · intro h
    exact absurd rfl h

theorem chunk_document_adjok (doc_id doc_type : String) (text : Str)
    (max_chars overlap_chars : Nat) (hoc : 0 < overlap_chars) :
    AdjOK overlap_chars
      (chunk_document doc_id doc_type text max_chars overlap_chars) := by
  have hinv := foldl_chunkStep_inv doc_id doc_type max_chars overlap_chars hoc
    (split_sentences (Py.strip text)) ⟨[], [], 0, 0⟩
    (split_sentences_stripped _) (initial_state_inv overlap_chars)
  obtain ⟨hadj, hchunks, hcne, hcstr, hlast⟩ := hinv
  have hred : chunk_document doc_id doc_type text max_chars overlap_chars
      = (if Py.strip text = [] then []
         else if (Py.strip text).length ≤ max_chars then
           [⟨mkChunkId doc_id 0, doc_id, doc_type, 0, Py.strip text, 0,
             (Py.strip text).length⟩]
         else if ((split_sentences (Py.strip text)).foldl
              (chunkStep doc_id doc_type max_chars overlap_chars)
              ⟨[], [], 0, 0⟩).cur ≠ [] then
           ((split_sentences (Py.strip text)).foldl
              (chunkStep doc_id doc_type max_chars overlap_chars)
              ⟨[], [], 0, 0⟩).chunks
            ++ [⟨mkChunkId doc_id ((split_sentences (Py.strip text)).foldl
                  (chunkStep doc_id doc_type max_chars overlap_chars)
                  ⟨[], [], 0, 0⟩).idx, doc_id, doc_type,
                ((split_sentences (Py.strip text)).foldl
                  (chunkStep doc_id doc_type max_chars overlap_chars)
                  ⟨[], [], 0, 0⟩).idx,
                ((split_sentences (Py.strip text)).foldl
                  (chunkStep doc_id doc_type max_chars overlap_chars)
                  ⟨[], [], 0, 0⟩).cur,
                ((split_sentences (Py.strip text)).foldl
                  (chunkStep doc_id doc_type max_chars overlap_chars)
                  ⟨[], [], 0, 0⟩).start,
                ((split_sentences (Py.strip text)).foldl
                  (chunkStep doc_id doc_type max_chars overlap_chars)
                  ⟨[], [], 0, 0⟩).start
                  + ((split_sentences (Py.strip text)).foldl
                      (chunkStep doc_id doc_type max_chars overlap_chars)
                      ⟨[], [], 0, 0⟩).cur.length⟩]
         else ((split_sentences (Py.strip text)).foldl
              (chunkStep doc_id doc_type max_chars overlap_chars)
              ⟨[], [], 0, 0⟩).chunks) := rfl
  rw [hred]
  split_ifs with h1 h2 h3
  · trivial
  · trivial
  · exact adjok_snoc hadj fun hne => ⟨(hlast hne).1, (hlast hne).2⟩
  · exact hadj

/-- C7 (amended): for every document, each chunk emitted by `chunk_document`
after the first begins with the final
`min(overlap_chars, len(previous chunk text))` characters of the previous
chunk's text *stripped of leading whitespace* (the overlap slice is passed
through `f"{overlap} {sent}".strip()`, which drops its leading whitespace),
and its `start_offset` equals the previous chunk's `end_offset` minus the
length of the untrimmed overlap slice. -/
theorem claim_C7_chunk_overlap (doc_id doc_type : String) (text : Str)
    (max_chars overlap_chars : Nat)
    (_hlen : (Py.strip text).length > max_chars) (hoc : 0 < overlap_chars) :
    ∀ i (hi : i + 1 <
        (chunk_document doc_id doc_type text max_chars overlap_chars).length),
      ChunkAdj overlap_chars
        ((chunk_document doc_id doc_type text max_chars overlap_chars).get
          ⟨i, Nat.lt_of_succ_lt hi⟩)
        ((chunk_document doc_id doc_type text max_chars overlap_chars).get
          ⟨i + 1, hi⟩) := by
  intro i hi
  exact adjok_get
    (chunk_document_adjok doc_id doc_type text max_chars overlap_chars hoc) i hi

/-- C7 counterexample: on the 13-character document `"ab cd. ef gh."` with
`max_chars = 8, overlap_chars = 4`, the overlap slice of the first chunk
`"ab cd."` is `" cd."` (leading space), and the second chunk's text
`"cd. ef gh."` does **not** begin with it — the claim's "begins with the
final min(overlap_chars, len(prev)) characters" fails as stated (the
start-offset part holds: 2 = 6 - 4). -/
theorem claim_C7_counterexample :
    chunk_document "d" "t" "ab cd. ef gh.".toList 8 4
      = [⟨"d#0", "d", "t", 0, "ab cd.".toList, 0, 6⟩,
         ⟨"d#1", "d", "t", 1, "cd. ef gh.".toList, 2, 12⟩]
    ∧ ("ab cd.".toList.drop 2 = " cd.".toList)
    ∧ ¬ (" cd.".toList <+: "cd. ef gh.".toList)
    ∧ (Py.strip "ab cd. ef gh.".toList).length > 8 := by
  refine ⟨by decide, by decide, by decide, by decide⟩

/-- Witness for `claim_C7_chunk_overlap` on the same document with
`overlap_chars = 3` (overlap slice `"cd."`, no leading whitespace). -/
theorem claim_C7_chunk_overlap_witness :
    ChunkAdj 3 ((chunk_document "d" "t" "ab cd. ef gh.".toList 8 3).get
        ⟨0, by decide⟩)
      ((chunk_document "d" "t" "ab cd. ef gh.".toList 8 3).get ⟨1, by decide⟩) :=
  claim_C7_chunk_overlap "d" "t" "ab cd. ef gh.".toList 8 3 (by decide)
    (by decide) 0 (by decide)

end Chunking

namespace DumpParser

/-- A row passes `checkEmit` only at the declared column count. -/
theorem checkEmit_length {n : Nat} {r row : List SqlValue}
    (h : checkEmit n r = some row) : row.length = n := by
  unfold checkEmit at h
  split_ifs at h with hl
  · cases h; exact hl

/-- `AFTER_VALUE` only ever emits a row of the declared column count. -/
theorem afterValueStep_emit_length {n : Nat} {m : Machine} {c : Char}
    {row : List SqlValue} (h : (afterValueStep n m c).2 = some row) :
    row.length = n := by
  unfold afterValueStep at h
  split_ifs at h <;>
    first
      | exact Option.noConfusion h
      | exact checkEmit_length h

/-- Every row emitted by a single machine step has the declared column
count: the only emission sites go through `checkEmit`. -/
theorem stepNS_emit_length {n : Nat} {m : Machine} {c : Char}
    {row : List SqlValue} (h : (stepNS n m c).2 = some row) :
    row.length = n := by
  obtain ⟨st, cv, cr, esc, np, bp, bpos, bv, brc⟩ := m
  cases st <;> simp only [stepNS] at h <;>
    (try split_ifs at h) <;>
    first
      | exact Option.noConfusion h
      | exact checkEmit_length h
      | exact afterValueStep_emit_length h

/-- Every row produced by the fuelled driver loop has the declared column
count, from any machine state. -/
theorem runM_row_length (n : Nat) :
    ∀ (fuel : Nat) (m : Machine) (chars : Str) (row : List SqlValue),
      row ∈ runM n fuel m chars → row.length = n := by
  intro fuel
  induction fuel with
  | zero =>
    intro m chars row h
    exact absurd h (List.not_mem_nil _)
  | succ f ih =>
    intro m chars row h
    cases chars with
    | nil => exact absurd h (List.not_mem_nil _)
    | cons c rest =>
      simp only [runM] at h
      by_cases hs : m.state = PState.scan
      · rw [if_pos hs] at h
        cases hsc : scanToValues (c :: rest) with
        | none => rw [hsc] at h; exact absurd h (List.not_mem_nil _)
        | some r2 => rw [hsc] at h; exact ih _ _ _ h
      · rw [if_neg hs] at h
        cases hst : stepNS n m c with
        | mk m2 em =>
          rw [hst] at h
          cases em with
          | none => exact ih _ _ _ h
          | some r =>
            rcases List.mem_cons.mp h with hr | hr
            · subst hr
              exact stepNS_emit_length (n := n) (m := m) (c := c)
                (by rw [hst])
            · exact ih _ _ _ hr

/-- C8 counterexample: on the claim's exact example line — written with a
space after each comma — `stream_rows` yields NO row at all, not the
claimed single row: in `VALUE_START` the space character falls into the
`STRING` fallback branch, so the opening quote of the following value
terminates that phantom string immediately and the rest of the row is
mangled past recovery. -/
theorem claim_C8_counterexample :
    stream_rows specLineSpaced 5 = [] ∧
    stream_rows specLineSpaced 5 ≠ [specRow] := by
  constructor
  · rfl
  · decide

/-- C8 (amended): `stream_rows` never yields a row whose value count
differs from the declared column count (both `yield` sites are guarded by
the length check); and on the example row in mysqldump's actual
extended-INSERT spacing — no space after the commas — it parses the line
`INSERT INTO \x60t\x60 VALUES (1,'he said \'hi\'',NULL,_binary '1',-3.14e-2);`
into exactly one row of five values: the string "1", the string
"he said 'hi'", a null, the integer 1 and the string "-3.14e-2". -/
theorem claim_C8_dump_rows :
    (∀ (data : Str) (n : Nat), ∀ row ∈ stream_rows data n, row.length = n) ∧
    stream_rows specLineTight 5 = [specRow] := by
  constructor
  · intro data n row h
    exact runM_row_length n _ _ _ _ h
  · rfl

/-- Witness for `claim_C8_dump_rows`: the arity invariant applied to the
concrete parsed row of the tight example line. -/
theorem claim_C8_dump_rows_witness : specRow.length = 5 :=
  claim_C8_dump_rows.1 specLineTight 5 specRow (by decide)

end DumpParser
